import Mathlib

/-!
# satisd: the update registry, the config merge worker and the /register handler

A shallow embedding of `satisd.go`.

* Go maps with string keys are association lists read with `mapGet` and written with
  `mapSet`; the position of a key in the list is representation only, the program
  observes a map through lookups and through `range`.
* `range` over `pendingUpdates` visits the entries in an order chosen by the runtime.
  The order is a parameter (`RangeOrder`), and every statement holds for all of them.
* A file on disk is represented by the syntax tree of its text (`Json`, members in
  textual order).  `json.Unmarshal` is `unmarshal`/`decode`, `json.MarshalIndent` is
  `marshal`, which emits the keys of a Go map in sorted order.
* One pass through the body of the `for` loop of `configGenerator` is
  `configGeneratorIter`.  File-system results and the shutdown channel are inputs
  (`Env`).  The pass is cut in two where the worker has left the critical section of
  `updateMutex` (`mergePhase`, then `persistPhase`), so that a `/register` request can
  be scheduled between the two halves.
-/

namespace Satisd

/-! ## Data model -/

/-- Source: `type PackageInfo struct` (lines 19-24). -/
structure PackageInfo where
  packageName : String
  packageVersion : String
  repositoryUrl : String
  repositoryType : String
deriving DecidableEq, Repr

/-- Syntax tree of a JSON text.  Object members are kept in textual order, duplicate
keys included.  A number is kept as the float64 it denotes (its bit pattern); the
program never inspects numbers. -/
inductive Json where
  | null
  | bool (b : Bool)
  | number (bits : Nat)
  | str (s : String)
  | arr (items : List Json)
  | obj (members : List (String × Json))

/-- Dynamic values held by an `interface{}` in this program: what `json.Unmarshal`
stores (`nil`, `bool`, `float64`, `string`, `[]interface{}`, `map[string]interface{}`)
and the `[]map[string]interface{}` that line 147 stores under `"repositories"`. -/
inductive GoValue where
  | nil
  | bool (b : Bool)
  | float64 (bits : Nat)
  | string (s : String)
  | slice (items : List GoValue)
  | map (entries : List (String × GoValue))
  | mapSlice (maps : List (List (String × GoValue)))

/-- Go map with string keys, as an association list. -/
abbrev GoMap (α : Type) := List (String × α)

/-- Map read `m[k]` (comma-ok form): the first entry for `k`. -/
def mapGet {α : Type} : GoMap α → String → Option α
  | [], _ => none
  | (k', v) :: rest, k => if k' = k then some v else mapGet rest k

/-- Map write `m[k] = v`: replaces the entry for `k`, or adds one. -/
def mapSet {α : Type} : GoMap α → String → α → GoMap α
  | [], k, v => [(k, v)]
  | (k', v') :: rest, k, v =>
    if k' = k then (k', v) :: rest else (k', v') :: mapSet rest k v

/-- Read from a possibly nil map: reading a nil map yields the zero value, not ok. -/
def nilGet {α : Type} (m : Option (GoMap α)) (k : String) : Option α :=
  match m with
  | none => none
  | some entries => mapGet entries k

/-! ## encoding/json -/

mutual
/-- Decoding of a JSON value into a fresh `interface{}`. -/
def decode : Json → GoValue
  | .null => .nil
  | .bool b => .bool b
  | .number x => .float64 x
  | .str s => .string s
  | .arr items => .slice (decodeList items)
  | .obj members => .map (decodeMembers [] members)
/-- Decoding of the items of a JSON array. -/
def decodeList : List Json → List GoValue
  | [] => []
  | x :: rest => decode x :: decodeList rest
/-- Decoding of the members of a JSON object into the map `acc`, in textual order:
each member is decoded into a fresh value and stored, entries already in `acc` under
other keys are kept. -/
def decodeMembers (acc : GoMap GoValue) : List (String × Json) → GoMap GoValue
  | [] => acc
  | (k, v) :: rest => decodeMembers (mapSet acc k (decode v)) rest
end

/-- Call `json.Unmarshal(data, &config)` for `config : map[string]interface{}` (line 92), on
well-formed JSON text.  `none`: an error is returned and `config` is untouched (the
text is not an object or null).  A `null` text sets the map to nil.  An object is
decoded into the existing map when there is one, which keeps its other entries. -/
def unmarshal (config : Option (GoMap GoValue)) : Json → Option (Option (GoMap GoValue))
  | .null => some none
  | .obj members => some (some (decodeMembers (config.getD []) members))
  | _ => none

/-- Insertion of a member into a list of members sorted by key. -/
def insertMember (kv : String × Json) : List (String × Json) → List (String × Json)
  | [] => [kv]
  | kv' :: rest =>
    if kv'.1.data < kv.1.data then kv' :: insertMember kv rest else kv :: kv' :: rest

mutual
/-- Syntax tree of the text produced by `json.MarshalIndent` (line 150).  Maps are
written with their keys sorted. -/
def marshal : GoValue → Json
  | .nil => .null
  | .bool b => .bool b
  | .float64 x => .number x
  | .string s => .str s
  | .slice items => .arr (marshalList items)
  | .map entries => .obj (marshalMap entries)
  | .mapSlice maps => .arr (marshalMaps maps)
/-- Marshalling of the items of a slice. -/
def marshalList : List GoValue → List Json
  | [] => []
  | x :: rest => marshal x :: marshalList rest
/-- Marshalling of the entries of a map, sorted by key. -/
def marshalMap : List (String × GoValue) → List (String × Json)
  | [] => []
  | (k, v) :: rest => insertMember (k, marshal v) (marshalMap rest)
/-- Marshalling of a slice of maps. -/
def marshalMaps : List (List (String × GoValue)) → List Json
  | [] => []
  | m :: rest => .obj (marshalMap m) :: marshalMaps rest
end

/-- Last member with key `k` in a list of object members. -/
def lastMember : List (String × Json) → String → Option Json
  | [], _ => none
  | (k', v) :: rest, k =>
    match lastMember rest k with
    | some w => some w
    | none => if k' = k then some v else none

/-- Top-level section `k` of a document: the value of its last member named `k`. -/
def sectionOf (doc : Json) (k : String) : Option Json :=
  match doc with
  | .obj members => lastMember members k
  | _ => none

/-! ## Shared state -/

/-- State of a `sync.RWMutex`. -/
structure RWMutex where
  readers : Nat
  writer : Bool
deriving DecidableEq, Repr

/-- An unlocked mutex. -/
def RWMutex.free : RWMutex := { readers := 0, writer := false }

/-- Method `RLock`: `none` when the caller has to wait (a writer holds the lock). -/
def RWMutex.rLock (m : RWMutex) : Option RWMutex :=
  if m.writer then none else some { m with readers := m.readers + 1 }

/-- Method `RUnlock`. -/
def RWMutex.rUnlock (m : RWMutex) : RWMutex := { m with readers := m.readers - 1 }

/-- Method `Lock`: `none` when the caller has to wait (the lock is held). -/
def RWMutex.lock (m : RWMutex) : Option RWMutex :=
  if m.writer || m.readers != 0 then none else some { m with writer := true }

/-- Method `Unlock`. -/
def RWMutex.unlock (m : RWMutex) : RWMutex := { m with writer := false }

/-- The operation variables of lines 36-45 that the merge worker and the handler
touch, and the variable `config` of `configGenerator` (line 66), which is declared
outside the `for` loop and so keeps its value from one pass to the next.
`updateMutex` is not a field: its critical sections are single steps of the model
and it is free between steps. -/
structure State where
  shouldGenerateConfig : Bool
  shouldGenerateRepo : Bool
  pendingUpdates : GoMap PackageInfo
  configMutex : RWMutex
  config : Option (GoMap GoValue)

/-- State at process start: both flags false, empty registry, nil `config`. -/
def State.init : State :=
  { shouldGenerateConfig := false, shouldGenerateRepo := false, pendingUpdates := [],
    configMutex := RWMutex.free, config := none }

/-! ## configGenerator -/

/-- Order in which `range pendingUpdates` visits the entries. -/
structure RangeOrder where
  apply : List PackageInfo → List PackageInfo
  perm : ∀ l, (apply l).Perm l

/-- Visit in stored order. -/
def RangeOrder.stored : RangeOrder := ⟨fun l => l, fun l => List.Perm.refl l⟩

/-- Visit in reverse order. -/
def RangeOrder.reversed : RangeOrder := ⟨fun l => l.reverse, fun l => List.reverse_perm l⟩

/-- Run-time panics of the merge step. -/
inductive Panic where
  | typeAssertion
  | nilMapWrite
deriving DecidableEq, Repr

/-- Bytes of the configuration file: not well-formed JSON, or a JSON text. -/
inductive FileData where
  | invalid
  | valid (doc : Json)

/-- Inputs of one pass of the worker loop. -/
structure Env where
  abort : Bool
  readFile : Option FileData
  writeFile : Bool

/-- How a pass of the worker loop ends.  `blockedOnRLock` and `blockedOnLock`: the
worker waits inside `configMutex.RLock()` (line 82) or `configMutex.Lock()` (line 156)
and the model does not follow it further. -/
inductive Outcome where
  | returned
  | idle
  | blockedOnRLock
  | readFailed
  | decodeFailed
  | panicked (p : Panic)
  | blockedOnLock
  | writeFailed
  | written (data : Json)

/-- The `url` entry of a repository descriptor, `repo["url"]`. -/
def urlOf (repo : GoMap GoValue) : Option GoValue := mapGet repo "url"

/-- Comparison `repo["url"] == packageInfo.repositoryUrl` (line 126) of an interface
value with a string: true only for a string with the same contents. -/
def urlEquals (repo : GoMap GoValue) (url : String) : Bool :=
  match urlOf repo with
  | some (.string s) => decide (s = url)
  | _ => false

/-- Inner loop, lines 125-131: overwrite the type of the first descriptor whose url
matches, and report in `repoExists` whether there was one. -/
def updateExisting (p : PackageInfo) : List (GoMap GoValue) → List (GoMap GoValue) × Bool
  | [] => ([], false)
  | repo :: rest =>
    if urlEquals repo p.repositoryUrl then
      (mapSet repo "type" (.string p.repositoryType) :: rest, true)
    else
      ((repo :: (updateExisting p rest).1), (updateExisting p rest).2)

/-- Descriptor appended at lines 135-138. -/
def newRepo (p : PackageInfo) : GoMap GoValue :=
  [("url", .string p.repositoryUrl), ("type", .string p.repositoryType)]

/-- Body of the loop over `pendingUpdates`, lines 122-142. -/
def applyUpdate (acc : List (GoMap GoValue) × GoMap GoValue) (p : PackageInfo) :
    List (GoMap GoValue) × GoMap GoValue :=
  ((if (updateExisting p acc.1).2 then (updateExisting p acc.1).1
    else (updateExisting p acc.1).1 ++ [newRepo p]),
   mapSet acc.2 p.packageName (.string p.packageVersion))

/-- Loop over `pendingUpdates`, lines 121-143, for a given visiting order. -/
def mergeUpdates (acc : List (GoMap GoValue) × GoMap GoValue) (updates : List PackageInfo) :
    List (GoMap GoValue) × GoMap GoValue :=
  updates.foldl applyUpdate acc

/-- Type assertions `repo.(map[string]interface{})` of lines 109-111. -/
def asMaps : List GoValue → Except Panic (List (GoMap GoValue))
  | [] => .ok []
  | .map entries :: rest =>
    match asMaps rest with
    | .ok maps => .ok (entries :: maps)
    | .error e => .error e
  | _ :: _ => .error .typeAssertion

/-- Lines 104-112: the `repositories` slice. -/
def getRepositories (config : Option (GoMap GoValue)) : Except Panic (List (GoMap GoValue)) :=
  match nilGet config "repositories" with
  | none => .ok []
  | some (.slice tmp2) => asMaps tmp2
  | some _ => .error .typeAssertion

/-- Lines 113-117: the `packages` map. -/
def getPackages (config : Option (GoMap GoValue)) : Except Panic (GoMap GoValue) :=
  match nilGet config "require" with
  | none => .ok []
  | some (.map entries) => .ok entries
  | some _ => .error .typeAssertion

/-- Lines 99-148: extract the two sections from the decoded `config`, fold the updates
in, store both sections back. -/
def mergeConfig (config : Option (GoMap GoValue)) (updates : List PackageInfo) :
    Except Panic (GoMap GoValue) :=
  match getRepositories config with
  | .error e => .error e
  | .ok repositories =>
    match getPackages config with
    | .error e => .error e
    | .ok packages =>
      match config with
      | none => .error .nilMapWrite
      | some entries =>
        .ok (mapSet
          (mapSet entries "repositories"
            (.mapSlice (mergeUpdates (repositories, packages) updates).1))
          "require" (.map (mergeUpdates (repositories, packages) updates).2))

/-- Result of the first half of a pass: the pass is over, or there is data to write. -/
inductive Step where
  | exit (o : Outcome)
  | write (data : Json)

/-- Lines 67-150 of a pass: shutdown check, flag check, read and decode the file,
merge, marshal.  The error branch of lines 151-154 has no counterpart: marshalling
the values that `json.Unmarshal` and the merge store does not fail. -/
def mergePhase (ρ : RangeOrder) (env : Env) (s : State) : State × Step :=
  if env.abort then (s, .exit .returned)
  else if !s.shouldGenerateConfig then (s, .exit .idle)
  else
    match s.configMutex.rLock with
    | none => (s, .exit .blockedOnRLock)
    | some held =>
      match env.readFile with
      | none => ({ s with configMutex := held.rUnlock }, .exit .readFailed)
      | some .invalid => ({ s with configMutex := held.rUnlock }, .exit .decodeFailed)
      | some (.valid doc) =>
        match unmarshal s.config doc with
        | none => ({ s with configMutex := held.rUnlock }, .exit .decodeFailed)
        | some config =>
          match mergeConfig config (ρ.apply (s.pendingUpdates.map Prod.snd)) with
          | .error p =>
            ({ s with configMutex := held.rUnlock, config := config }, .exit (.panicked p))
          | .ok merged =>
            ({ s with configMutex := held.rUnlock, config := some merged },
              .write (marshal (.map merged)))

/-- Lines 156-169 of a pass: take the write lock, write the file, and on success
release the lock, empty the registry and set the flags.  When the write fails the
pass ends at the `continue` of line 160. -/
def persistPhase (env : Env) (s : State) (data : Json) : State × Outcome :=
  match s.configMutex.lock with
  | none => (s, .blockedOnLock)
  | some held =>
    if env.writeFile then
      ({ shouldGenerateConfig := false, shouldGenerateRepo := true, pendingUpdates := [],
         configMutex := held.unlock, config := s.config }, .written data)
    else
      ({ s with configMutex := held }, .writeFailed)

/-- One pass through the body of the `for` loop of `configGenerator` (lines 67-170). -/
def configGeneratorIter (ρ : RangeOrder) (env : Env) (s : State) : State × Outcome :=
  match mergePhase ρ env s with
  | (s1, .exit o) => (s1, o)
  | (s1, .write data) => persistPhase env s1 data

/-! ## The /register handler -/

/-- Parsed query string, `url.Values`. -/
abbrev Values := GoMap (List String)

/-- Method `Values.Get`: the first value of the key, or the empty string. -/
def Values.Get (v : Values) (key : String) : String :=
  match mapGet v key with
  | some (x :: _) => x
  | _ => ""

/-- What a handler sent: header fields, status code, body. -/
structure Response where
  header : List (String × String)
  status : Nat
  body : String
deriving DecidableEq, Repr

/-- Header set at line 242. -/
def jsonHeader : List (String × String) := [("Content-Type", "application/json")]

/-- The `PackageInfo` built from the query parameters at lines 245-250. -/
def requestedUpdate (params : Values) : PackageInfo :=
  { repositoryUrl := params.Get "repo"
    repositoryType := params.Get "repoType"
    packageName := params.Get "package"
    packageVersion := params.Get "version" }

/-- Lines 271-273: an empty version becomes the wildcard constraint. -/
def defaultVersion (update : PackageInfo) : PackageInfo :=
  if update.packageVersion = "" then { update with packageVersion := "*" } else update

/-- Body sent with status 200 (line 281). -/
def successBody : String := "\x7b\"success\": true\x7d"

/-- Handler of `/register` in `serveHttp` (lines 241-282). -/
def register (params : Values) (s : State) : State × Response :=
  if (requestedUpdate params).packageName = "" then
    (s, ⟨jsonHeader, 400, "\x7b\"error\": \"missing package\"\x7d"⟩)
  else if (requestedUpdate params).repositoryUrl = "" then
    (s, ⟨jsonHeader, 400, "\x7b\"error\": \"missing repo\"\x7d"⟩)
  else if (requestedUpdate params).repositoryType = "" then
    (s, ⟨jsonHeader, 400, "\x7b\"error\": \"missing repoType\"\x7d"⟩)
  else
    ({ s with
        pendingUpdates :=
          mapSet s.pendingUpdates (defaultVersion (requestedUpdate params)).packageName
            (defaultVersion (requestedUpdate params))
        shouldGenerateRepo := true },
      ⟨jsonHeader, 200, successBody⟩)

/-- Registry as the handler builds it: one entry per key, each stored under its own
package name. -/
def registryWellFormed (pending : GoMap PackageInfo) : Prop :=
  (pending.map Prod.fst).Nodup ∧ ∀ e ∈ pending, e.2.packageName = e.1

/-! ## The wording of the specification for /register -/

/-- Spec wording: a query parameter is "missing or empty" when the query has no value
for it or its first value is the empty string. -/
def specMissing (params : Values) (field : String) : Bool :=
  match mapGet params field with
  | none => true
  | some [] => true
  | some (v :: _) => decide (v = "")

/-- Spec wording: "the first missing field in the order package, repo, repoType". -/
def specFirstMissing (params : Values) : Option String :=
  ["package", "repo", "repoType"].find? (specMissing params)

/-- Spec wording: the error body `{"error": "missing <field>"}`. -/
def specErrorBody (field : String) : String :=
  "\x7b\"error\": \"missing " ++ field ++ "\"\x7d"

/-- Spec wording: the value of a parameter that is present. -/
def specValue (params : Values) (field : String) : String :=
  match mapGet params field with
  | some (v :: _) => v
  | _ => ""

/-- Spec wording: the update a valid request records, with the wildcard constraint
when `version` is absent or empty. -/
def specUpdate (params : Values) : PackageInfo :=
  { packageName := specValue params "package"
    packageVersion := if specMissing params "version" then "*" else specValue params "version"
    repositoryUrl := specValue params "repo"
    repositoryType := specValue params "repoType" }

/-! ## Concrete inputs -/

/-- The registration of the end-to-end scenario. -/
def widgetUpdate : PackageInfo :=
  { packageName := "acme/widget", packageVersion := "1.2.0",
    repositoryUrl := "https://example.com/widget.git", repositoryType := "vcs" }

/-- Query of the request that registers `widgetUpdate`. -/
def widgetRequest : Values :=
  [("package", ["acme/widget"]), ("version", ["1.2.0"]),
   ("repo", ["https://example.com/widget.git"]), ("repoType", ["vcs"])]

/-- An earlier request for the widget package: no version, another repository. -/
def oldWidgetRequest : Values :=
  [("package", ["acme/widget"]), ("repo", ["https://old.example.com/w.git"]),
   ("repoType", ["composer"])]

/-- A second update, for another package of the same repository. -/
def gadgetUpdate : PackageInfo :=
  { packageName := "acme/gadget", packageVersion := "*",
    repositoryUrl := "https://example.com/widget.git", repositoryType := "git" }

/-- Query of the request that registers `gadgetUpdate`; it has no version. -/
def gadgetRequest : Values :=
  [("package", ["acme/gadget"]), ("repo", ["https://example.com/widget.git"]),
   ("repoType", ["git"])]

/-- The document `{"repositories": [], "require": {}}`. -/
def emptyDocument : Json := .obj [("repositories", .arr []), ("require", .obj [])]

/-- The document the end-to-end scenario expects, members in the order the
specification writes them. -/
def widgetDocument : Json :=
  .obj [("repositories",
          .arr [.obj [("url", .str "https://example.com/widget.git"), ("type", .str "vcs")]]),
        ("require", .obj [("acme/widget", .str "1.2.0")])]

/-- The text MarshalIndent writes for `widgetDocument`: the same object, with the keys
of the descriptor in sorted order. -/
def widgetDocumentWritten : Json :=
  .obj [("repositories",
          .arr [.obj [("type", .str "vcs"), ("url", .str "https://example.com/widget.git")]]),
        ("require", .obj [("acme/widget", .str "1.2.0")])]

/-- The Go value of `config` after the scenario. -/
def widgetConfig : GoMap GoValue :=
  [("repositories", .mapSlice [[("url", .string "https://example.com/widget.git"),
      ("type", .string "vcs")]]),
   ("require", .map [("acme/widget", .string "1.2.0")])]

/-- A worker state in which the merge has been requested and `widgetUpdate` is the
one pending update. -/
def widgetState : State :=
  { shouldGenerateConfig := true, shouldGenerateRepo := false,
    pendingUpdates := [("acme/widget", widgetUpdate)],
    configMutex := RWMutex.free, config := none }

/-- An environment in which the file holds `doc` and the write succeeds. -/
def goodEnv (doc : Json) : Env := { abort := false, readFile := some (.valid doc), writeFile := true }

/-- An environment in which the file holds `doc` and the write fails. -/
def failingWriteEnv (doc : Json) : Env :=
  { abort := false, readFile := some (.valid doc), writeFile := false }

/-- A document with a foreign top-level section whose keys are not in sorted order:
`{"archive": {"format": "tar", "directory": "dist"}, "repositories": [], "require": {}}`. -/
def archiveDocument : Json :=
  .obj [("archive", .obj [("format", .str "tar"), ("directory", .str "dist")]),
        ("repositories", .arr []), ("require", .obj [])]

/-- The text written for `archiveDocument` once `widgetUpdate` is merged in. -/
def archiveDocumentWritten : Json :=
  .obj [("archive", .obj [("directory", .str "dist"), ("format", .str "tar")]),
        ("repositories",
          .arr [.obj [("type", .str "vcs"), ("url", .str "https://example.com/widget.git")]]),
        ("require", .obj [("acme/widget", .str "1.2.0")])]

/-- A state with two pending updates that share a repository url. -/
def twoUpdatesState : State :=
  { shouldGenerateConfig := true, shouldGenerateRepo := false,
    pendingUpdates := [("acme/widget", widgetUpdate), ("acme/gadget", gadgetUpdate)],
    configMutex := RWMutex.free, config := none }

/-! ## The value of a JSON text -/

/-- A step from a JSON value to one of its children: into the member named `k` of an
object, or to item `i` of an array. -/
inductive PathStep where
  | key (k : String)
  | index (i : Nat)

/-- Item `i` of a list of JSON values. -/
def itemAt : List Json → Nat → Option Json
  | [], _ => none
  | x :: _, 0 => some x
  | _ :: rest, i + 1 => itemAt rest i

/-- The child of a JSON value one step down.  For an object it is the value of the
last member with that name, as a JSON reader takes it. -/
def childAt : Json → PathStep → Option Json
  | .obj members, .key k => lastMember members k
  | .arr items, .index i => itemAt items i
  | _, _ => none

/-- The value found by following a path of steps from the root, if there is one. -/
def nodeAt : Json → List PathStep → Option Json
  | j, [] => some j
  | j, step :: rest =>
    match childAt j step with
    | none => none
    | some child => nodeAt child rest

/-- What stands at a node apart from its children: the scalar, or that it is an array
or an object. -/
inductive Node where
  | null
  | bool (b : Bool)
  | number (bits : Nat)
  | str (s : String)
  | arr
  | obj

/-- The node at the root of a JSON value. -/
def nodeOf : Json → Node
  | .null => .null
  | .bool b => .bool b
  | .number x => .number x
  | .str s => .str s
  | .arr _ => .arr
  | .obj _ => .obj

/-- Two JSON texts denote the same value: along every path both have a node or
neither has, and the nodes carry the same scalar or are both arrays or both objects.
So objects have the same member names with the same values, in any order, and arrays
the same items in the same order.  Numbers are compared as the float64 they denote,
which is how `Json` keeps them. -/
def sameValue (a b : Json) : Prop :=
  ∀ path, (nodeAt a path).map nodeOf = (nodeAt b path).map nodeOf

/-! ## Inputs of a later pass -/

/-- The worker state after the scenario pass, once the merge has been requested again
with `gadgetUpdate` pending: `config` still holds what the first pass stored. -/
def laterPassState : State :=
  { shouldGenerateConfig := true, shouldGenerateRepo := true,
    pendingUpdates := [("acme/gadget", gadgetUpdate)],
    configMutex := RWMutex.free, config := some widgetConfig }

/-- The same pending update on a first pass, with `config` still nil. -/
def firstPassState : State :=
  { shouldGenerateConfig := true, shouldGenerateRepo := true,
    pendingUpdates := [("acme/gadget", gadgetUpdate)],
    configMutex := RWMutex.free, config := none }

/-- The document `{"require": {}}`: a JSON object without `repositories`. -/
def requireOnlyDocument : Json := .obj [("require", .obj [])]

/-- The document `{"repositories": []}`: a JSON object without `require`. -/
def repositoriesOnlyDocument : Json := .obj [("repositories", .arr [])]

/-! ## Go maps -/

theorem mapGet_mapSet_same {α : Type} (m : GoMap α) (k : String) (v : α) :
    mapGet (mapSet m k v) k = some v := by
  induction m with
  | nil => simp [mapSet, mapGet]
  | cons kv rest ih =>
    obtain ⟨k', v'⟩ := kv
    by_cases h : k' = k
    · simp [mapSet, mapGet, h]
    · simp [mapSet, mapGet, h, ih]

theorem mapGet_mapSet_of_ne {α : Type} (m : GoMap α) (k k' : String) (v : α) (h : k ≠ k') :
    mapGet (mapSet m k v) k' = mapGet m k' := by
  induction m with
  | nil => simp [mapSet, mapGet, h]
  | cons kv rest ih =>
    obtain ⟨k0, v0⟩ := kv
    by_cases h0 : k0 = k
    · subst h0
      simp [mapSet, mapGet, h]
    · by_cases h1 : k0 = k'
      · subst h1
        simp [mapSet, mapGet, h0]
      · simp [mapSet, mapGet, h0, h1, ih]

theorem mapGet_mapSet {α : Type} (m : GoMap α) (k k' : String) (v : α) :
    mapGet (mapSet m k v) k' = if k = k' then some v else mapGet m k' := by
  by_cases h : k = k'
  · subst h
    simp [mapGet_mapSet_same]
  · simp [h, mapGet_mapSet_of_ne]

theorem mapGet_eq_none_iff {α : Type} (m : GoMap α) (k : String) :
    mapGet m k = none ↔ k ∉ m.map Prod.fst := by
  induction m with
  | nil => simp [mapGet]
  | cons kv rest ih =>
    obtain ⟨k0, v0⟩ := kv
    by_cases h0 : k0 = k
    · simp [mapGet, h0]
    · have h1 : ¬ k = k0 := fun e => h0 e.symm
      simp [mapGet, h0, h1, ih]

theorem mapGet_mem {α : Type} (m : GoMap α) (k : String) (v : α) (h : mapGet m k = some v) :
    (k, v) ∈ m := by
  induction m with
  | nil => simp [mapGet] at h
  | cons kv rest ih =>
    obtain ⟨k0, v0⟩ := kv
    by_cases h0 : k0 = k
    · simp [mapGet, h0] at h
      simp [h0, h]
    · simp [mapGet, h0] at h
      exact List.mem_cons_of_mem _ (ih h)

theorem mapGet_of_mem_nodup {α : Type} (m : GoMap α) (k : String) (v : α)
    (hnd : (m.map Prod.fst).Nodup) (h : (k, v) ∈ m) : mapGet m k = some v := by
  induction m with
  | nil => simp at h
  | cons kv rest ih =>
    obtain ⟨k0, v0⟩ := kv
    simp only [List.map_cons, List.nodup_cons] at hnd
    rcases List.mem_cons.mp h with h | h
    · cases h
      simp [mapGet]
    · have hk : k ∈ rest.map Prod.fst := List.mem_map.mpr ⟨(k, v), h, rfl⟩
      have h0 : ¬ k0 = k := fun e => hnd.1 (e ▸ hk)
      simp [mapGet, h0, ih hnd.2 h]

theorem keys_mapSet {α : Type} (m : GoMap α) (k : String) (v : α) :
    (mapSet m k v).map Prod.fst =
      if k ∈ m.map Prod.fst then m.map Prod.fst else m.map Prod.fst ++ [k] := by
  induction m with
  | nil => simp [mapSet]
  | cons kv rest ih =>
    obtain ⟨k0, v0⟩ := kv
    by_cases h0 : k0 = k
    · simp [mapSet, h0]
    · have h1 : ¬ k = k0 := fun e => h0 e.symm
      by_cases hm : k ∈ rest.map Prod.fst
      · have hm' : ∃ a, (∃ b, (a, b) ∈ rest) ∧ a = k := by simpa using hm
        simp [mapSet, h0, h1, ih, hm, hm']
      · have hm' : ¬ ∃ a, (∃ b, (a, b) ∈ rest) ∧ a = k := by simpa using hm
        simp [mapSet, h0, h1, ih, hm, hm']

theorem nodup_keys_mapSet {α : Type} (m : GoMap α) (k : String) (v : α)
    (h : (m.map Prod.fst).Nodup) : ((mapSet m k v).map Prod.fst).Nodup := by
  rw [keys_mapSet]
  by_cases hm : k ∈ m.map Prod.fst
  · simp only [hm, if_true]
    exact h
  · simp only [hm, if_false]
    exact List.Nodup.append h (List.nodup_singleton k) (by simpa using hm)

theorem mem_mapSet {α : Type} (m : GoMap α) (k : String) (v : α) (kv : String × α)
    (h : kv ∈ mapSet m k v) : kv = (k, v) ∨ kv ∈ m := by
  induction m with
  | nil =>
    simp [mapSet] at h
    exact Or.inl h
  | cons e rest ih =>
    obtain ⟨k0, v0⟩ := e
    by_cases h0 : k0 = k
    · simp [mapSet, h0] at h
      rcases h with h | h
      · exact Or.inl h
      · exact Or.inr (List.mem_cons_of_mem _ h)
    · simp [mapSet, h0] at h
      rcases h with h | h
      · exact Or.inr (by simp [h])
      · rcases ih h with h | h
        · exact Or.inl h
        · exact Or.inr (List.mem_cons_of_mem _ h)

/-! ## The loop over the pending updates -/

theorem urlEquals_iff (repo : GoMap GoValue) (u : String) :
    urlEquals repo u = true ↔ urlOf repo = some (.string u) := by
  unfold urlEquals
  cases h : urlOf repo with
  | none => simp
  | some v => cases v <;> simp

theorem urlOf_setType (repo : GoMap GoValue) (v : GoValue) :
    urlOf (mapSet repo "type" v) = urlOf repo := by
  unfold urlOf
  exact mapGet_mapSet_of_ne repo "type" "url" v (by decide)

theorem updateExisting_snd (p : PackageInfo) (l : List (GoMap GoValue)) :
    (updateExisting p l).2 = true ↔ ∃ r ∈ l, urlEquals r p.repositoryUrl = true := by
  induction l with
  | nil => simp [updateExisting]
  | cons repo rest ih =>
    by_cases h : urlEquals repo p.repositoryUrl = true
    · simp [updateExisting, h]
    · simp [updateExisting, h, ih]

theorem updateExisting_length (p : PackageInfo) (l : List (GoMap GoValue)) :
    (updateExisting p l).1.length = l.length := by
  induction l with
  | nil => simp [updateExisting]
  | cons repo rest ih =>
    by_cases h : urlEquals repo p.repositoryUrl = true
    · simp [updateExisting, h]
    · simp [updateExisting, h, ih]

theorem updateExisting_urls (p : PackageInfo) (l : List (GoMap GoValue)) :
    (updateExisting p l).1.map urlOf = l.map urlOf := by
  induction l with
  | nil => simp [updateExisting]
  | cons repo rest ih =>
    by_cases h : urlEquals repo p.repositoryUrl = true
    · simp [updateExisting, h, urlOf_setType]
    · simp [updateExisting, h, ih]

theorem updateExisting_of_false (p : PackageInfo) (l : List (GoMap GoValue))
    (h : (updateExisting p l).2 = false) : (updateExisting p l).1 = l := by
  induction l with
  | nil => simp [updateExisting]
  | cons repo rest ih =>
    by_cases h0 : urlEquals repo p.repositoryUrl = true
    · simp [updateExisting, h0] at h
    · simp [updateExisting, h0] at h
      simp [updateExisting, h0, ih h]

theorem updateExisting_split (p : PackageInfo) (l : List (GoMap GoValue))
    (h : (updateExisting p l).2 = true) :
    ∃ pre r post, l = pre ++ r :: post ∧
      (∀ x ∈ pre, urlEquals x p.repositoryUrl = false) ∧
      urlEquals r p.repositoryUrl = true ∧
      (updateExisting p l).1 = pre ++ mapSet r "type" (.string p.repositoryType) :: post := by
  induction l with
  | nil => simp [updateExisting] at h
  | cons repo rest ih =>
    by_cases h0 : urlEquals repo p.repositoryUrl = true
    · exact ⟨[], repo, rest, by simp, by simp, h0, by simp [updateExisting, h0]⟩
    · simp [updateExisting, h0] at h
      obtain ⟨pre, r, post, hl, hpre, hr, hres⟩ := ih h
      refine ⟨repo :: pre, r, post, by simp [hl], ?_, hr, ?_⟩
      · intro x hx
        rcases List.mem_cons.mp hx with hx | hx
        · subst hx
          simpa using h0
        · exact hpre x hx
      · simp [updateExisting, h0, hres]

theorem applyUpdate_snd (acc : List (GoMap GoValue) × GoMap GoValue) (p : PackageInfo) :
    (applyUpdate acc p).2 = mapSet acc.2 p.packageName (.string p.packageVersion) := rfl

theorem applyUpdate_urls (acc : List (GoMap GoValue) × GoMap GoValue) (p : PackageInfo) :
    (applyUpdate acc p).1.map urlOf =
      if (updateExisting p acc.1).2 then acc.1.map urlOf
      else acc.1.map urlOf ++ [some (.string p.repositoryUrl)] := by
  unfold applyUpdate
  by_cases h : (updateExisting p acc.1).2 = true
  · simp [h, updateExisting_urls]
  · simp [h, updateExisting_urls, newRepo, urlOf, mapGet]

theorem applyUpdate_nodup (acc : List (GoMap GoValue) × GoMap GoValue) (p : PackageInfo)
    (h : (acc.1.map urlOf).Nodup) : ((applyUpdate acc p).1.map urlOf).Nodup := by
  rw [applyUpdate_urls]
  by_cases he : (updateExisting p acc.1).2 = true
  · simpa [he] using h
  · simp only [he]
    refine List.Nodup.append h (List.nodup_singleton _) ?_
    have hno : ¬ ∃ r ∈ acc.1, urlEquals r p.repositoryUrl = true :=
      fun hex => he ((updateExisting_snd p acc.1).mpr hex)
    intro a ha hb
    have hb' : a = some (.string p.repositoryUrl) := by simpa using hb
    subst hb'
    obtain ⟨r, hr, hu⟩ := List.mem_map.mp ha
    exact hno ⟨r, hr, (urlEquals_iff r p.repositoryUrl).mpr hu⟩

theorem mergeUpdates_nil (acc : List (GoMap GoValue) × GoMap GoValue) :
    mergeUpdates acc [] = acc := rfl

theorem mergeUpdates_cons (acc : List (GoMap GoValue) × GoMap GoValue) (p : PackageInfo)
    (rest : List PackageInfo) :
    mergeUpdates acc (p :: rest) = mergeUpdates (applyUpdate acc p) rest := rfl

theorem mergeUpdates_nodup (updates : List PackageInfo)
    (acc : List (GoMap GoValue) × GoMap GoValue) (h : (acc.1.map urlOf).Nodup) :
    ((mergeUpdates acc updates).1.map urlOf).Nodup := by
  induction updates generalizing acc with
  | nil => simpa [mergeUpdates_nil] using h
  | cons p rest ih =>
    rw [mergeUpdates_cons]
    exact ih (applyUpdate acc p) (applyUpdate_nodup acc p h)

/-! ### The require map after the loop -/

theorem packages_untouched (updates : List PackageInfo)
    (acc : List (GoMap GoValue) × GoMap GoValue) (k : String)
    (h : ∀ u ∈ updates, u.packageName ≠ k) :
    mapGet (mergeUpdates acc updates).2 k = mapGet acc.2 k := by
  induction updates generalizing acc with
  | nil => rfl
  | cons p rest ih =>
    rw [mergeUpdates_cons, ih (applyUpdate acc p) (fun u hu => h u (List.mem_cons_of_mem _ hu)),
      applyUpdate_snd]
    exact mapGet_mapSet_of_ne _ _ _ _ (h p (List.mem_cons_self _ _))

theorem packages_recorded (updates : List PackageInfo)
    (acc : List (GoMap GoValue) × GoMap GoValue) (u : PackageInfo) (hu : u ∈ updates)
    (huniq : ∀ w ∈ updates, w.packageName = u.packageName → w = u) :
    mapGet (mergeUpdates acc updates).2 u.packageName = some (.string u.packageVersion) := by
  induction updates generalizing acc with
  | nil => simp at hu
  | cons p rest ih =>
    rw [mergeUpdates_cons]
    by_cases hr : u ∈ rest
    · exact ih (applyUpdate acc p) hr (fun w hw => huniq w (List.mem_cons_of_mem _ hw))
    · have hp : u = p := by
        rcases List.mem_cons.mp hu with h | h
        · exact h
        · exact absurd h hr
      subst hp
      rw [packages_untouched rest (applyUpdate acc u) u.packageName, applyUpdate_snd]
      · exact mapGet_mapSet_same _ _ _
      · intro w hw hn
        exact hr (huniq w (List.mem_cons_of_mem _ hw) hn ▸ hw)

theorem packages_source (updates : List PackageInfo)
    (acc : List (GoMap GoValue) × GoMap GoValue) (k : String) (v : GoValue)
    (h : mapGet (mergeUpdates acc updates).2 k = some v) :
    (∃ u ∈ updates, u.packageName = k ∧ v = .string u.packageVersion) ∨
      mapGet acc.2 k = some v := by
  induction updates generalizing acc with
  | nil => exact Or.inr h
  | cons p rest ih =>
    rw [mergeUpdates_cons] at h
    rcases ih (applyUpdate acc p) h with ⟨u, hu, hk, hv⟩ | h'
    · exact Or.inl ⟨u, List.mem_cons_of_mem _ hu, hk, hv⟩
    · rw [applyUpdate_snd, mapGet_mapSet] at h'
      by_cases hk : p.packageName = k
      · simp [hk] at h'
        exact Or.inl ⟨p, List.mem_cons_self _ _, hk, h'.symm⟩
      · simp [hk] at h'
        exact Or.inr h'

theorem unique_of_nodup_names (updates : List PackageInfo)
    (h : (updates.map PackageInfo.packageName).Nodup) (u w : PackageInfo)
    (hu : u ∈ updates) (hw : w ∈ updates) (hn : w.packageName = u.packageName) : w = u :=
  List.inj_on_of_nodup_map h hw hu hn

/-! ### The repositories slice after the loop -/

theorem setType_newRepo (u p : PackageInfo) (h : u.repositoryUrl = p.repositoryUrl) :
    mapSet (newRepo u) "type" (.string p.repositoryType) = newRepo p := by
  simp [newRepo, mapSet, h]

theorem urlOf_newRepo (u : PackageInfo) : urlOf (newRepo u) = some (.string u.repositoryUrl) := by
  simp [newRepo, urlOf, mapGet]

theorem applyUpdate_descriptors (acc : List (GoMap GoValue) × GoMap GoValue) (p : PackageInfo)
    (seen : List PackageInfo) (h : ∀ r ∈ acc.1, ∃ u ∈ seen, r = newRepo u) :
    ∀ r ∈ (applyUpdate acc p).1, ∃ u ∈ p :: seen, r = newRepo u := by
  intro r hr
  unfold applyUpdate at hr
  by_cases he : (updateExisting p acc.1).2 = true
  · obtain ⟨pre, r0, post, hl, _, hr0, hres⟩ := updateExisting_split p acc.1 he
    simp only [he, if_true, hres] at hr
    rcases List.mem_append.mp hr with hr | hr
    · obtain ⟨u, hu, e⟩ := h r (by rw [hl]; exact List.mem_append_left _ hr)
      exact ⟨u, List.mem_cons_of_mem _ hu, e⟩
    · rcases List.mem_cons.mp hr with hr | hr
      · obtain ⟨u, _, e⟩ := h r0 (by rw [hl]; simp)
        refine ⟨p, List.mem_cons_self _ _, ?_⟩
        rw [hr, e]
        apply setType_newRepo
        have hu0 := (urlEquals_iff r0 p.repositoryUrl).mp hr0
        rw [e, urlOf_newRepo] at hu0
        simpa using hu0
      · obtain ⟨u, hu, e⟩ := h r (by rw [hl]; simp [hr])
        exact ⟨u, List.mem_cons_of_mem _ hu, e⟩
  · have he' : (updateExisting p acc.1).2 = false := by simpa using he
    simp only [he', updateExisting_of_false p acc.1 he'] at hr
    rcases List.mem_append.mp hr with hr | hr
    · obtain ⟨u, hu, e⟩ := h r hr
      exact ⟨u, List.mem_cons_of_mem _ hu, e⟩
    · exact ⟨p, List.mem_cons_self _ _, by simpa using hr⟩

theorem applyUpdate_covers (acc : List (GoMap GoValue) × GoMap GoValue) (p : PackageInfo)
    (seen : List PackageInfo)
    (h : ∀ u ∈ seen, some (GoValue.string u.repositoryUrl) ∈ acc.1.map urlOf) :
    ∀ u ∈ p :: seen, some (GoValue.string u.repositoryUrl) ∈ (applyUpdate acc p).1.map urlOf := by
  intro u hu
  rw [applyUpdate_urls]
  by_cases he : (updateExisting p acc.1).2 = true
  · simp only [he, if_true]
    rcases List.mem_cons.mp hu with hu | hu
    · subst hu
      obtain ⟨r, hr, hurl⟩ := (updateExisting_snd u acc.1).mp he
      exact List.mem_map.mpr ⟨r, hr, (urlEquals_iff r u.repositoryUrl).mp hurl⟩
    · exact h u hu
  · simp only [he]
    rcases List.mem_cons.mp hu with hu | hu
    · subst hu
      simp
    · exact List.mem_append_left _ (h u hu)

theorem mergeUpdates_descriptors (updates : List PackageInfo)
    (acc : List (GoMap GoValue) × GoMap GoValue) (seen : List PackageInfo)
    (h : ∀ r ∈ acc.1, ∃ u ∈ seen, r = newRepo u) :
    ∀ r ∈ (mergeUpdates acc updates).1, ∃ u, (u ∈ updates ∨ u ∈ seen) ∧ r = newRepo u := by
  induction updates generalizing acc seen with
  | nil =>
    intro r hr
    obtain ⟨u, hu, e⟩ := h r hr
    exact ⟨u, Or.inr hu, e⟩
  | cons p rest ih =>
    intro r hr
    rw [mergeUpdates_cons] at hr
    obtain ⟨u, hu, e⟩ := ih (applyUpdate acc p) (p :: seen) (applyUpdate_descriptors acc p seen h) r hr
    refine ⟨u, ?_, e⟩
    rcases hu with hu | hu
    · exact Or.inl (List.mem_cons_of_mem _ hu)
    · rcases List.mem_cons.mp hu with hu | hu
      · exact Or.inl (hu ▸ List.mem_cons_self _ _)
      · exact Or.inr hu

theorem mergeUpdates_covers (updates : List PackageInfo)
    (acc : List (GoMap GoValue) × GoMap GoValue) (seen : List PackageInfo)
    (h : ∀ u ∈ seen, some (GoValue.string u.repositoryUrl) ∈ acc.1.map urlOf) :
    ∀ u, (u ∈ updates ∨ u ∈ seen) →
      some (GoValue.string u.repositoryUrl) ∈ (mergeUpdates acc updates).1.map urlOf := by
  induction updates generalizing acc seen with
  | nil =>
    intro u hu
    rcases hu with hu | hu
    · simp at hu
    · exact h u hu
  | cons p rest ih =>
    intro u hu
    rw [mergeUpdates_cons]
    apply ih (applyUpdate acc p) (p :: seen) (applyUpdate_covers acc p seen h) u
    rcases hu with hu | hu
    · rcases List.mem_cons.mp hu with hu | hu
      · exact Or.inr (hu ▸ List.mem_cons_self _ _)
      · exact Or.inl hu
    · exact Or.inr (List.mem_cons_of_mem _ hu)

theorem string_some_injective :
    Function.Injective (fun x : String => some (GoValue.string x)) := by
  intro a b h
  simpa using h

/-- Starting from an empty slice the loop leaves one descriptor per distinct url. -/
theorem mergeUpdates_from_empty (updates : List PackageInfo) (packages : GoMap GoValue) :
    ((mergeUpdates ([], packages) updates).1.map urlOf).Nodup ∧
    (∀ r ∈ (mergeUpdates ([], packages) updates).1, ∃ u ∈ updates, r = newRepo u) ∧
    (∀ u ∈ updates, ∃ r ∈ (mergeUpdates ([], packages) updates).1,
      urlOf r = some (.string u.repositoryUrl)) ∧
    (mergeUpdates ([], packages) updates).1.length =
      (updates.map PackageInfo.repositoryUrl).dedup.length := by
  have hnd := mergeUpdates_nodup updates ([], packages) (by simp)
  have hdesc := mergeUpdates_descriptors updates ([], packages) [] (by simp)
  have hcov := mergeUpdates_covers updates ([], packages) [] (by simp)
  have hdesc' : ∀ r ∈ (mergeUpdates ([], packages) updates).1, ∃ u ∈ updates, r = newRepo u := by
    intro r hr
    obtain ⟨u, hu, e⟩ := hdesc r hr
    rcases hu with hu | hu
    · exact ⟨u, hu, e⟩
    · simp at hu
  have hcov' : ∀ u ∈ updates, ∃ r ∈ (mergeUpdates ([], packages) updates).1,
      urlOf r = some (.string u.repositoryUrl) := by
    intro u hu
    obtain ⟨r, hr, e⟩ := List.mem_map.mp (hcov u (Or.inl hu))
    exact ⟨r, hr, e⟩
  refine ⟨hnd, hdesc', hcov', ?_⟩
  have hperm : ((mergeUpdates ([], packages) updates).1.map urlOf).Perm
      (((updates.map PackageInfo.repositoryUrl).dedup).map
        (fun x : String => some (GoValue.string x))) := by
    refine (List.perm_ext_iff_of_nodup hnd
      ((List.nodup_dedup _).map string_some_injective)).mpr ?_
    intro a
    constructor
    · intro ha
      obtain ⟨r, hr, e⟩ := List.mem_map.mp ha
      obtain ⟨u, hu, er⟩ := hdesc' r hr
      rw [← e, er, urlOf_newRepo]
      exact List.mem_map.mpr ⟨u.repositoryUrl,
        List.mem_dedup.mpr (List.mem_map.mpr ⟨u, hu, rfl⟩), rfl⟩
    · intro ha
      obtain ⟨x, hx, e⟩ := List.mem_map.mp ha
      obtain ⟨u, hu, eu⟩ := List.mem_map.mp (List.mem_dedup.mp hx)
      rw [← e, ← eu]
      exact hcov u (Or.inl hu)
  have := hperm.length_eq
  simpa using this

/-! ## Decoding -/

theorem decodeMembers_nil (acc : GoMap GoValue) : decodeMembers acc [] = acc := by
  simp [decodeMembers]

theorem decodeMembers_cons (acc : GoMap GoValue) (k : String) (v : Json)
    (rest : List (String × Json)) :
    decodeMembers acc ((k, v) :: rest) = decodeMembers (mapSet acc k (decode v)) rest := by
  simp [decodeMembers]

/-- Lookup in a decoded object: the last member with that key wins, and a key that the
text does not mention keeps the entry the map had before. -/
theorem mapGet_decodeMembers (members : List (String × Json)) (acc : GoMap GoValue)
    (k : String) :
    mapGet (decodeMembers acc members) k =
      match lastMember members k with
      | some j => some (decode j)
      | none => mapGet acc k := by
  induction members generalizing acc with
  | nil => simp [decodeMembers_nil, lastMember]
  | cons kv rest ih =>
    obtain ⟨k0, v0⟩ := kv
    rw [decodeMembers_cons, ih]
    cases hl : lastMember rest k with
    | some w => simp [lastMember, hl]
    | none =>
      by_cases h0 : k0 = k
      · simp [lastMember, hl, h0, mapGet_mapSet_same]
      · simp [lastMember, hl, h0, mapGet_mapSet_of_ne _ _ _ _ h0]

/-! ## One pass of the worker -/

theorem rUnlock_rLock (m held : RWMutex) (h : m.rLock = some held) :
    held.rUnlock = m ∧ m.writer = false := by
  obtain ⟨r, w⟩ := m
  unfold RWMutex.rLock at h
  cases w
  · simp at h
    subst h
    simp [RWMutex.rUnlock]
  · simp at h

theorem lock_some (m held : RWMutex) (h : m.lock = some held) :
    m = RWMutex.free ∧ held = { readers := 0, writer := true } := by
  unfold RWMutex.lock at h
  obtain ⟨r, w⟩ := m
  cases w <;> simp at h
  obtain ⟨hr, hh⟩ := h
  subst hr
  subst hh
  simp [RWMutex.free]

theorem mergeConfig_ok_inv (cfg : Option (GoMap GoValue)) (updates : List PackageInfo)
    (merged : GoMap GoValue) (h : mergeConfig cfg updates = .ok merged) :
    ∃ entries repositories packages, cfg = some entries ∧
      getRepositories cfg = .ok repositories ∧ getPackages cfg = .ok packages ∧
      merged = mapSet (mapSet entries "repositories"
          (.mapSlice (mergeUpdates (repositories, packages) updates).1))
        "require" (.map (mergeUpdates (repositories, packages) updates).2) := by
  unfold mergeConfig at h
  cases hr : getRepositories cfg with
  | error e => simp [hr] at h
  | ok repositories =>
    cases hp : getPackages cfg with
    | error e => simp [hr, hp] at h
    | ok packages =>
      cases cfg with
      | none => simp [hr, hp] at h
      | some entries =>
        simp only [hr, hp] at h
        injection h with h
        exact ⟨entries, repositories, packages, rfl, rfl, rfl, h.symm⟩

theorem merged_require (entries : GoMap GoValue) (a b : GoValue) :
    mapGet (mapSet (mapSet entries "repositories" a) "require" b) "require" = some b :=
  mapGet_mapSet_same _ _ _

theorem merged_repositories (entries : GoMap GoValue) (a b : GoValue) :
    mapGet (mapSet (mapSet entries "repositories" a) "require" b) "repositories" = some a := by
  rw [mapGet_mapSet_of_ne _ "require" "repositories" _ (by decide)]
  exact mapGet_mapSet_same _ _ _

theorem merged_other (entries : GoMap GoValue) (a b : GoValue) (k : String)
    (h1 : k ≠ "repositories") (h2 : k ≠ "require") :
    mapGet (mapSet (mapSet entries "repositories" a) "require" b) k = mapGet entries k := by
  rw [mapGet_mapSet_of_ne _ "require" k _ (fun e => h2 e.symm),
    mapGet_mapSet_of_ne _ "repositories" k _ (fun e => h1 e.symm)]

theorem mergePhase_write (ρ : RangeOrder) (env : Env) (s : State) (doc : Json)
    (cfg : Option (GoMap GoValue)) (merged : GoMap GoValue)
    (habort : env.abort = false) (hflag : s.shouldGenerateConfig = true)
    (hlock : s.configMutex.writer = false)
    (hread : env.readFile = some (.valid doc)) (hdec : unmarshal s.config doc = some cfg)
    (hmerge : mergeConfig cfg (ρ.apply (s.pendingUpdates.map Prod.snd)) = .ok merged) :
    mergePhase ρ env s = ({ s with config := some merged }, .write (marshal (.map merged))) := by
  obtain ⟨f1, f2, pend, ⟨r, w⟩, c⟩ := s
  simp only at hlock hflag hdec hmerge
  subst hlock
  simp [mergePhase, habort, hflag, RWMutex.rLock, RWMutex.rUnlock, hread, hdec, hmerge]

theorem mergePhase_write_inv (ρ : RangeOrder) (env : Env) (s s1 : State) (data : Json)
    (h : mergePhase ρ env s = (s1, .write data)) :
    env.abort = false ∧ s.shouldGenerateConfig = true ∧ s.configMutex.writer = false ∧
    ∃ doc cfg merged, env.readFile = some (.valid doc) ∧ unmarshal s.config doc = some cfg ∧
      mergeConfig cfg (ρ.apply (s.pendingUpdates.map Prod.snd)) = .ok merged ∧
      s1 = { s with config := some merged } ∧ data = marshal (.map merged) := by
  unfold mergePhase at h
  by_cases ha : env.abort = true
  · simp [ha] at h
  · by_cases hf : s.shouldGenerateConfig = true
    · simp only [ha, hf] at h
      cases hl : s.configMutex.rLock with
      | none => simp [hl] at h
      | some held =>
        obtain ⟨hun, hw⟩ := rUnlock_rLock _ _ hl
        cases hr : env.readFile with
        | none => simp [hl, hr] at h
        | some fd =>
          cases fd with
          | invalid => simp [hl, hr] at h
          | valid doc =>
            cases hd : unmarshal s.config doc with
            | none => simp [hl, hr, hd] at h
            | some cfg =>
              cases hm : mergeConfig cfg (ρ.apply (s.pendingUpdates.map Prod.snd)) with
              | error p => simp [hl, hr, hd, hm] at h
              | ok merged =>
                simp only [hl, hr, hd, hm, hun] at h
                injection h with h1 h2
                injection h2 with h2
                refine ⟨by simpa using ha, hf, hw, doc, cfg, merged, rfl, hd, hm, ?_, h2.symm⟩
                rw [← h1, hf]
    · simp [ha, hf] at h

theorem mergePhase_exit (ρ : RangeOrder) (env : Env) (s s1 : State) (o : Outcome)
    (h : mergePhase ρ env s = (s1, .exit o)) :
    (∀ data, o ≠ .written data) ∧ o ≠ .writeFailed := by
  unfold mergePhase at h
  by_cases ha : env.abort = true
  · simp only [ha, if_true] at h
    injection h with _ h2
    injection h2 with h2
    subst h2
    exact ⟨fun _ e => Outcome.noConfusion e, fun e => Outcome.noConfusion e⟩
  · by_cases hf : s.shouldGenerateConfig = true
    · simp only [ha, hf] at h
      cases hl : s.configMutex.rLock with
      | none =>
        simp only [hl] at h
        injection h with _ h2
        injection h2 with h2
        subst h2
        exact ⟨fun _ e => Outcome.noConfusion e, fun e => Outcome.noConfusion e⟩
      | some held =>
        cases hr : env.readFile with
        | none =>
          simp only [hl, hr] at h
          injection h with _ h2
          injection h2 with h2
          subst h2
          exact ⟨fun _ e => Outcome.noConfusion e, fun e => Outcome.noConfusion e⟩
        | some fd =>
          cases fd with
          | invalid =>
            simp only [hl, hr] at h
            injection h with _ h2
            injection h2 with h2
            subst h2
            exact ⟨fun _ e => Outcome.noConfusion e, fun e => Outcome.noConfusion e⟩
          | valid doc =>
            cases hd : unmarshal s.config doc with
            | none =>
              simp only [hl, hr, hd] at h
              injection h with _ h2
              injection h2 with h2
              subst h2
              exact ⟨fun _ e => Outcome.noConfusion e, fun e => Outcome.noConfusion e⟩
            | some cfg =>
              cases hmg : mergeConfig cfg (ρ.apply (s.pendingUpdates.map Prod.snd)) with
              | error p =>
                simp only [hl, hr, hd, hmg] at h
                injection h with _ h2
                injection h2 with h2
                subst h2
                exact ⟨fun _ e => Outcome.noConfusion e, fun e => Outcome.noConfusion e⟩
              | ok merged =>
                simp only [hl, hr, hd, hmg] at h
                injection h with _ h2
                exact Step.noConfusion h2
    · simp only [ha, hf] at h
      simp at h
      obtain ⟨_, h2⟩ := h
      subst h2
      exact ⟨fun _ e => Outcome.noConfusion e, fun e => Outcome.noConfusion e⟩

theorem persistPhase_written_inv (env : Env) (s s' : State) (data data' : Json)
    (h : persistPhase env s data = (s', .written data')) :
    s.configMutex = RWMutex.free ∧ env.writeFile = true ∧ data' = data ∧
      s' = { shouldGenerateConfig := false, shouldGenerateRepo := true, pendingUpdates := [],
             configMutex := RWMutex.free, config := s.config } := by
  unfold persistPhase at h
  cases hl : s.configMutex.lock with
  | none => simp [hl] at h
  | some held =>
    obtain ⟨hfree, hheld⟩ := lock_some _ _ hl
    by_cases hw : env.writeFile = true
    · simp [hl, hw] at h
      refine ⟨hfree, hw, h.2.symm, ?_⟩
      rw [← h.1, hheld]
      simp [RWMutex.unlock, RWMutex.free]
    · simp [hl, hw] at h

theorem iter_written_inv (ρ : RangeOrder) (env : Env) (s s' : State) (data : Json)
    (h : configGeneratorIter ρ env s = (s', .written data)) :
    ∃ doc cfg merged, env.abort = false ∧ s.shouldGenerateConfig = true ∧
      s.configMutex = RWMutex.free ∧ env.readFile = some (.valid doc) ∧
      unmarshal s.config doc = some cfg ∧
      mergeConfig cfg (ρ.apply (s.pendingUpdates.map Prod.snd)) = .ok merged ∧
      env.writeFile = true ∧
      s' = { shouldGenerateConfig := false, shouldGenerateRepo := true, pendingUpdates := [],
             configMutex := RWMutex.free, config := some merged } ∧
      data = marshal (.map merged) := by
  unfold configGeneratorIter at h
  cases hm : mergePhase ρ env s with
  | mk s1 step =>
    cases step with
    | exit o =>
      simp only [hm] at h
      injection h with _ ho
      exact absurd ho ((mergePhase_exit ρ env s s1 o hm).1 data)
    | write d =>
      simp only [hm] at h
      obtain ⟨ha, hf, _, doc, cfg, merged, hr, hd, hmg, hs1, hdata⟩ :=
        mergePhase_write_inv ρ env s s1 d hm
      obtain ⟨hfree, hw, hdd, hs'⟩ := persistPhase_written_inv env s1 s' d data h
      refine ⟨doc, cfg, merged, ha, hf, ?_, hr, hd, hmg, hw, ?_, ?_⟩
      · rw [hs1] at hfree
        exact hfree
      · rw [hs', hs1]
      · rw [hdd, hdata]

theorem iter_written (ρ : RangeOrder) (env : Env) (s : State) (doc : Json)
    (cfg : Option (GoMap GoValue)) (merged : GoMap GoValue)
    (habort : env.abort = false) (hflag : s.shouldGenerateConfig = true)
    (hlock : s.configMutex = RWMutex.free)
    (hread : env.readFile = some (.valid doc)) (hdec : unmarshal s.config doc = some cfg)
    (hmerge : mergeConfig cfg (ρ.apply (s.pendingUpdates.map Prod.snd)) = .ok merged)
    (hwrite : env.writeFile = true) :
    configGeneratorIter ρ env s =
      ({ shouldGenerateConfig := false, shouldGenerateRepo := true, pendingUpdates := [],
         configMutex := RWMutex.free, config := some merged },
       .written (marshal (.map merged))) := by
  unfold configGeneratorIter
  rw [mergePhase_write ρ env s doc cfg merged habort hflag (by rw [hlock]; rfl) hread hdec hmerge]
  simp [persistPhase, hlock, RWMutex.lock, RWMutex.free, hwrite, RWMutex.unlock]

/-! ## Marshalling -/

theorem marshalMap_nil : marshalMap [] = [] := by
  simp [marshalMap]

theorem marshalMap_cons (k : String) (v : GoValue) (rest : List (String × GoValue)) :
    marshalMap ((k, v) :: rest) = insertMember (k, marshal v) (marshalMap rest) := by
  simp [marshalMap]

theorem mem_insertMember (kv x : String × Json) (l : List (String × Json)) :
    x ∈ insertMember kv l ↔ x = kv ∨ x ∈ l := by
  induction l with
  | nil => simp [insertMember]
  | cons y rest ih =>
    by_cases h : y.1.data < kv.1.data
    · simp only [insertMember, h, if_true, List.mem_cons, ih]
      tauto
    · simp only [insertMember, h, if_false, List.mem_cons]

theorem keys_insertMember (kv : String × Json) (l : List (String × Json)) :
    ((insertMember kv l).map Prod.fst).Perm (kv.1 :: l.map Prod.fst) := by
  induction l with
  | nil => simp [insertMember]
  | cons y rest ih =>
    by_cases h : y.1.data < kv.1.data
    · simp only [insertMember, h, if_true, List.map_cons]
      exact (List.Perm.cons y.1 ih).trans (List.Perm.swap kv.1 y.1 _)
    · simp only [insertMember, h, if_false, List.map_cons]
      exact List.Perm.refl _

theorem keys_marshalMap (m : List (String × GoValue)) :
    ((marshalMap m).map Prod.fst).Perm (m.map Prod.fst) := by
  induction m with
  | nil => simp [marshalMap_nil]
  | cons kv rest ih =>
    obtain ⟨k, v⟩ := kv
    rw [marshalMap_cons]
    exact (keys_insertMember _ _).trans (List.Perm.cons k ih)

theorem mem_marshalMap (m : List (String × GoValue)) (k : String) (j : Json) :
    (k, j) ∈ marshalMap m ↔ ∃ v, (k, v) ∈ m ∧ j = marshal v := by
  induction m with
  | nil => simp [marshalMap_nil]
  | cons kv rest ih =>
    obtain ⟨k0, v0⟩ := kv
    rw [marshalMap_cons, mem_insertMember, ih]
    constructor
    · rintro (h | ⟨v, hv, e⟩)
      · cases h
        exact ⟨v0, List.mem_cons_self _ _, rfl⟩
      · exact ⟨v, List.mem_cons_of_mem _ hv, e⟩
    · rintro ⟨v, hv, e⟩
      rcases List.mem_cons.mp hv with hv | hv
      · cases hv
        exact Or.inl (by rw [e])
      · exact Or.inr ⟨v, hv, e⟩

theorem lastMember_eq_none (l : List (String × Json)) (k : String)
    (h : k ∉ l.map Prod.fst) : lastMember l k = none := by
  induction l with
  | nil => rfl
  | cons kv rest ih =>
    obtain ⟨k0, v0⟩ := kv
    simp only [List.map_cons, List.mem_cons, not_or] at h
    have h0 : ¬ k0 = k := fun e => h.1 e.symm
    simp [lastMember, ih h.2, h0]

theorem lastMember_of_mem_nodup (l : List (String × Json)) (k : String) (j : Json)
    (hnd : (l.map Prod.fst).Nodup) (h : (k, j) ∈ l) : lastMember l k = some j := by
  induction l with
  | nil => simp at h
  | cons kv rest ih =>
    obtain ⟨k0, v0⟩ := kv
    simp only [List.map_cons, List.nodup_cons] at hnd
    rcases List.mem_cons.mp h with h | h
    · cases h
      simp [lastMember, lastMember_eq_none rest k hnd.1]
    · simp [lastMember, ih hnd.2 h]

/-- Section `k` of a marshalled map is the marshalled entry for `k`. -/
theorem sectionOf_marshal (m : GoMap GoValue) (k : String) (hnd : (m.map Prod.fst).Nodup) :
    sectionOf (marshal (.map m)) k = (mapGet m k).map marshal := by
  have hkeys := keys_marshalMap m
  have hnd' : ((marshalMap m).map Prod.fst).Nodup := hkeys.nodup_iff.mpr hnd
  simp only [marshal, sectionOf]
  cases hg : mapGet m k with
  | none =>
    have hk : k ∉ m.map Prod.fst := (mapGet_eq_none_iff m k).mp hg
    have hk' : k ∉ (marshalMap m).map Prod.fst := fun hmem => hk (hkeys.mem_iff.mp hmem)
    simp [lastMember_eq_none _ _ hk']
  | some v =>
    have hmem : (k, marshal v) ∈ marshalMap m :=
      (mem_marshalMap m k (marshal v)).mpr ⟨v, mapGet_mem m k v hg, rfl⟩
    simp [lastMember_of_mem_nodup _ _ _ hnd' hmem]

theorem nodup_keys_decodeMembers (members : List (String × Json)) (acc : GoMap GoValue)
    (h : (acc.map Prod.fst).Nodup) : ((decodeMembers acc members).map Prod.fst).Nodup := by
  induction members generalizing acc with
  | nil => simpa [decodeMembers_nil] using h
  | cons kv rest ih =>
    obtain ⟨k, v⟩ := kv
    rw [decodeMembers_cons]
    exact ih _ (nodup_keys_mapSet acc k (decode v) h)

/-! ## Sections of the decoded config -/

theorem asMaps_ok (items : List GoValue) (h : ∀ x ∈ items, ∃ m, x = GoValue.map m) :
    ∃ maps, asMaps items = .ok maps ∧ items = maps.map GoValue.map := by
  induction items with
  | nil => exact ⟨[], rfl, rfl⟩
  | cons x rest ih =>
    obtain ⟨m, hm⟩ := h x (List.mem_cons_self _ _)
    obtain ⟨maps, hok, heq⟩ := ih (fun y hy => h y (List.mem_cons_of_mem _ hy))
    subst hm
    exact ⟨m :: maps, by simp [asMaps, hok], by simp [heq]⟩

theorem perm_singleton_apply (ρ : RangeOrder) (u : PackageInfo) : ρ.apply [u] = [u] :=
  List.perm_singleton.mp (ρ.perm [u])

theorem mem_apply (ρ : RangeOrder) (l : List PackageInfo) (u : PackageInfo) :
    u ∈ ρ.apply l ↔ u ∈ l :=
  (ρ.perm l).mem_iff

theorem mem_values {α : Type} (m : GoMap α) (u : α) :
    u ∈ m.map Prod.snd ↔ ∃ e ∈ m, e.2 = u := by
  simp

/-! ## The claims -/

/-- C1: for pending updates of distinct packages and a document whose `repositories`
list and `require` map are empty, one pass of `configGenerator` (whatever the order in
which `range` visits the updates) writes a document whose `require` map has exactly
the registered package names as keys, each with its version constraint, and whose
`repositories` list has exactly one descriptor per distinct repository url. -/
theorem C1_merge_into_empty_document (ρ : RangeOrder) (env : Env) (s : State) (doc : Json)
    (habort : env.abort = false) (hflag : s.shouldGenerateConfig = true)
    (hlock : s.configMutex = RWMutex.free)
    (hread : env.readFile = some (.valid doc)) (hwrite : env.writeFile = true)
    (hrepos : sectionOf doc "repositories" = some (.arr []))
    (hreq : sectionOf doc "require" = some (.obj []))
    (hdistinct : (s.pendingUpdates.map (fun e => e.2.packageName)).Nodup) :
    ∃ merged repos req,
      configGeneratorIter ρ env s =
        ({ shouldGenerateConfig := false, shouldGenerateRepo := true, pendingUpdates := [],
           configMutex := RWMutex.free, config := some merged },
         .written (marshal (.map merged))) ∧
      mapGet merged "repositories" = some (.mapSlice repos) ∧
      mapGet merged "require" = some (.map req) ∧
      (∀ k v, mapGet req k = some v ↔
        ∃ e ∈ s.pendingUpdates, e.2.packageName = k ∧ v = .string e.2.packageVersion) ∧
      (∀ r ∈ repos, ∃ e ∈ s.pendingUpdates, r = newRepo e.2) ∧
      (∀ e ∈ s.pendingUpdates, ∃ r ∈ repos, urlOf r = some (.string e.2.repositoryUrl)) ∧
      (repos.map urlOf).Nodup ∧
      repos.length = ((s.pendingUpdates.map (fun e => e.2.repositoryUrl)).dedup).length := by
  cases doc with
  | obj members =>
    simp only [sectionOf] at hrepos hreq
    have hgr : mapGet (decodeMembers (s.config.getD []) members) "repositories" =
        some (.slice []) := by
      rw [mapGet_decodeMembers, hrepos]
      simp [decode, decodeList]
    have hgq : mapGet (decodeMembers (s.config.getD []) members) "require" =
        some (.map []) := by
      rw [mapGet_decodeMembers, hreq]
      simp [decode, decodeMembers_nil]
    have hR : getRepositories (some (decodeMembers (s.config.getD []) members)) = .ok [] := by
      simp [getRepositories, nilGet, hgr, asMaps]
    have hP : getPackages (some (decodeMembers (s.config.getD []) members)) = .ok [] := by
      simp [getPackages, nilGet, hgq]
    have hmerge : mergeConfig (some (decodeMembers (s.config.getD []) members))
        (ρ.apply (s.pendingUpdates.map Prod.snd)) =
        .ok (mapSet (mapSet (decodeMembers (s.config.getD []) members) "repositories"
            (.mapSlice (mergeUpdates ([], []) (ρ.apply (s.pendingUpdates.map Prod.snd))).1))
          "require" (.map (mergeUpdates ([], []) (ρ.apply (s.pendingUpdates.map Prod.snd))).2)) := by
      simp [mergeConfig, hR, hP]
    have hmem : ∀ u, u ∈ ρ.apply (s.pendingUpdates.map Prod.snd) ↔
        ∃ e ∈ s.pendingUpdates, e.2 = u := fun u =>
      (mem_apply ρ _ u).trans (mem_values _ u)
    have hnames : ((ρ.apply (s.pendingUpdates.map Prod.snd)).map
        PackageInfo.packageName).Nodup := by
      have hp := (ρ.perm (s.pendingUpdates.map Prod.snd)).map PackageInfo.packageName
      rw [hp.nodup_iff, List.map_map]
      exact hdistinct
    obtain ⟨hnd, hdesc, hcov, hlen⟩ :=
      mergeUpdates_from_empty (ρ.apply (s.pendingUpdates.map Prod.snd)) []
    refine ⟨_, _, _, iter_written ρ env s _ _ _ habort hflag hlock hread rfl hmerge hwrite,
      merged_repositories _ _ _, merged_require _ _ _, ?_, ?_, ?_, hnd, ?_⟩
    · intro k v
      constructor
      · intro hg
        rcases packages_source _ _ k v hg with ⟨u, hu, hk, hv⟩ | hno
        · obtain ⟨e, he, rfl⟩ := (hmem u).mp hu
          exact ⟨e, he, hk, hv⟩
        · simp [mapGet] at hno
      · rintro ⟨e, he, hk, hv⟩
        have hu : e.2 ∈ ρ.apply (s.pendingUpdates.map Prod.snd) := (hmem e.2).mpr ⟨e, he, rfl⟩
        rw [← hk, hv]
        exact packages_recorded _ _ e.2 hu
          (fun w hw hn => unique_of_nodup_names _ hnames e.2 w hu hw hn)
    · intro r hr
      obtain ⟨u, hu, e⟩ := hdesc r hr
      obtain ⟨e', he', rfl⟩ := (hmem u).mp hu
      exact ⟨e', he', e⟩
    · intro e he
      exact hcov e.2 ((hmem e.2).mpr ⟨e, he, rfl⟩)
    · rw [hlen]
      have hp := ((ρ.perm (s.pendingUpdates.map Prod.snd)).map PackageInfo.repositoryUrl).dedup
      rw [hp.length_eq, List.map_map]
      rfl
  | null => simp [sectionOf] at hrepos
  | bool b => simp [sectionOf] at hrepos
  | number x => simp [sectionOf] at hrepos
  | str x => simp [sectionOf] at hrepos
  | arr x => simp [sectionOf] at hrepos

/-- C4: a pass whose write succeeds clears `shouldGenerateConfig`, sets
`shouldGenerateRepo` and empties the registry; and from the document
`{"repositories": [], "require": {}}` with the one pending update for `acme/widget`
the pass writes the expected document (the text MarshalIndent produces for it) and
arms the rebuild flag. -/
theorem C4_successful_write_resets_and_arms :
    (∀ (ρ : RangeOrder) (env : Env) (s s' : State) (data : Json),
      configGeneratorIter ρ env s = (s', .written data) →
        s'.shouldGenerateConfig = false ∧ s'.shouldGenerateRepo = true ∧
        s'.pendingUpdates = []) ∧
    (∀ ρ : RangeOrder,
      configGeneratorIter ρ (goodEnv emptyDocument) widgetState =
        ({ shouldGenerateConfig := false, shouldGenerateRepo := true, pendingUpdates := [],
           configMutex := RWMutex.free, config := some widgetConfig },
         .written widgetDocumentWritten)) ∧
    marshal (decode widgetDocument) = widgetDocumentWritten := by
  refine ⟨?_, ?_, rfl⟩
  · intro ρ env s s' data h
    obtain ⟨doc, cfg, merged, _, _, _, _, _, _, _, hs', _⟩ := iter_written_inv ρ env s s' data h
    subst hs'
    exact ⟨rfl, rfl, rfl⟩
  · intro ρ
    have hm : mergeConfig (some (decodeMembers [] [("repositories", Json.arr []),
        ("require", Json.obj [])])) (ρ.apply (widgetState.pendingUpdates.map Prod.snd)) =
        .ok widgetConfig := by
      have : widgetState.pendingUpdates.map Prod.snd = [widgetUpdate] := rfl
      rw [this, perm_singleton_apply]
      rfl
    exact iter_written ρ (goodEnv emptyDocument) widgetState emptyDocument _ widgetConfig
      rfl rfl rfl rfl rfl hm rfl

/-- C5: when a descriptor with the url of the update is already in the list, the
update overwrites the type of that descriptor (the first with that url) in place, the
length of the list is unchanged, and a list with pairwise distinct urls still has
pairwise distinct urls after the whole loop over the pending updates, hence in the
`repositories` slice that a merge stores in the document. -/
theorem C5_existing_url_is_updated_in_place (repositories : List (GoMap GoValue))
    (packages : GoMap GoValue) (p : PackageInfo) (updates : List PackageInfo)
    (hex : ∃ r ∈ repositories, urlOf r = some (.string p.repositoryUrl)) :
    (∃ pre r post, repositories = pre ++ r :: post ∧
      (∀ x ∈ pre, urlOf x ≠ some (.string p.repositoryUrl)) ∧
      urlOf r = some (.string p.repositoryUrl) ∧
      (applyUpdate (repositories, packages) p).1 =
        pre ++ mapSet r "type" (.string p.repositoryType) :: post ∧
      mapGet (mapSet r "type" (.string p.repositoryType)) "type" =
        some (.string p.repositoryType)) ∧
    (applyUpdate (repositories, packages) p).1.length = repositories.length ∧
    ((repositories.map urlOf).Nodup →
      ∀ d ∈ repositories, urlOf d = some (.string p.repositoryUrl) →
        mapSet d "type" (.string p.repositoryType) ∈
          (applyUpdate (repositories, packages) p).1) ∧
    ((repositories.map urlOf).Nodup →
      ((mergeUpdates (repositories, packages) updates).1.map urlOf).Nodup) ∧
    (∀ (cfg : Option (GoMap GoValue)) (merged : GoMap GoValue),
      getRepositories cfg = .ok repositories → (repositories.map urlOf).Nodup →
      mergeConfig cfg updates = .ok merged →
      ∃ repos, mapGet merged "repositories" = some (.mapSlice repos) ∧
        (repos.map urlOf).Nodup) := by
  have he : (updateExisting p repositories).2 = true := by
    obtain ⟨r, hr, hu⟩ := hex
    exact (updateExisting_snd p repositories).mpr ⟨r, hr, (urlEquals_iff r _).mpr hu⟩
  obtain ⟨pre, r, post, hl, hpre, hr, hres⟩ := updateExisting_split p repositories he
  have hres' : (applyUpdate (repositories, packages) p).1 =
      pre ++ mapSet r "type" (.string p.repositoryType) :: post := by
    simp [applyUpdate, he, hres]
  refine ⟨⟨pre, r, post, hl, ?_, (urlEquals_iff r _).mp hr, hres', mapGet_mapSet_same _ _ _⟩,
    ?_, ?_, ?_, ?_⟩
  · intro x hx hu
    have := hpre x hx
    rw [(urlEquals_iff x _).mpr hu] at this
    exact Bool.noConfusion this
  · simp [applyUpdate, he, updateExisting_length]
  · intro hnd d hd hu
    have hrmem : r ∈ repositories := by
      rw [hl]
      simp
    have hdr : d = r :=
      List.inj_on_of_nodup_map hnd hd hrmem (hu.trans ((urlEquals_iff r _).mp hr).symm)
    rw [hres', hdr]
    simp
  · intro hnd
    exact mergeUpdates_nodup updates (repositories, packages) hnd
  · intro cfg merged hg hnd hm
    obtain ⟨entries, repos0, packages0, _, hg0, _, hmerged⟩ := mergeConfig_ok_inv cfg updates merged hm
    rw [hg] at hg0
    injection hg0 with hg0
    subst hg0
    refine ⟨_, ?_, mergeUpdates_nodup updates (repositories, packages0) hnd⟩
    rw [hmerged]
    exact merged_repositories _ _ _

/-- Witness for C5: the list holds one descriptor for the widget repository, of type
`vcs`; the update for `acme/gadget` names the same url with type `git`. -/
theorem C5_existing_url_is_updated_in_place_witness :
    (∃ pre r post, [newRepo widgetUpdate] = pre ++ r :: post ∧
      (∀ x ∈ pre, urlOf x ≠ some (.string gadgetUpdate.repositoryUrl)) ∧
      urlOf r = some (.string gadgetUpdate.repositoryUrl) ∧
      (applyUpdate ([newRepo widgetUpdate], []) gadgetUpdate).1 =
        pre ++ mapSet r "type" (.string gadgetUpdate.repositoryType) :: post ∧
      mapGet (mapSet r "type" (.string gadgetUpdate.repositoryType)) "type" =
        some (.string gadgetUpdate.repositoryType)) ∧
    (applyUpdate ([newRepo widgetUpdate], []) gadgetUpdate).1.length =
      [newRepo widgetUpdate].length ∧
    (([newRepo widgetUpdate].map urlOf).Nodup →
      ∀ d ∈ [newRepo widgetUpdate], urlOf d = some (.string gadgetUpdate.repositoryUrl) →
        mapSet d "type" (.string gadgetUpdate.repositoryType) ∈
          (applyUpdate ([newRepo widgetUpdate], []) gadgetUpdate).1) ∧
    (([newRepo widgetUpdate].map urlOf).Nodup →
      ((mergeUpdates ([newRepo widgetUpdate], []) [gadgetUpdate, widgetUpdate]).1.map
        urlOf).Nodup) ∧
    (∀ (cfg : Option (GoMap GoValue)) (merged : GoMap GoValue),
      getRepositories cfg = .ok [newRepo widgetUpdate] →
      ([newRepo widgetUpdate].map urlOf).Nodup →
      mergeConfig cfg [gadgetUpdate, widgetUpdate] = .ok merged →
      ∃ repos, mapGet merged "repositories" = some (.mapSlice repos) ∧
        (repos.map urlOf).Nodup) :=
  C5_existing_url_is_updated_in_place [newRepo widgetUpdate] [] gadgetUpdate
    [gadgetUpdate, widgetUpdate] ⟨newRepo widgetUpdate, List.mem_singleton.mpr rfl, rfl⟩

/-- When the decoded `config` is a map whose `repositories` entry is absent or a slice
of maps and whose `require` entry is absent or a map, the merge step of lines 99-148
ends without a panic, and a section absent from `config` is treated as empty. -/
theorem mergeConfig_of_typed_sections (cfg : GoMap GoValue) (updates : List PackageInfo)
    (hrepos : mapGet cfg "repositories" = none ∨
      ∃ items, mapGet cfg "repositories" = some (.slice items) ∧
        ∀ x ∈ items, ∃ m, x = GoValue.map m)
    (hreq : mapGet cfg "require" = none ∨
      ∃ entries, mapGet cfg "require" = some (.map entries)) :
    ∃ repositories packages,
      getRepositories (some cfg) = .ok repositories ∧
      getPackages (some cfg) = .ok packages ∧
      (mapGet cfg "repositories" = none → repositories = []) ∧
      (∀ items, mapGet cfg "repositories" = some (.slice items) →
        items = repositories.map GoValue.map) ∧
      (mapGet cfg "require" = none → packages = []) ∧
      (∀ entries, mapGet cfg "require" = some (.map entries) → packages = entries) ∧
      mergeConfig (some cfg) updates =
        .ok (mapSet (mapSet cfg "repositories"
            (.mapSlice (mergeUpdates (repositories, packages) updates).1))
          "require" (.map (mergeUpdates (repositories, packages) updates).2)) := by
  have hR : ∃ repositories, getRepositories (some cfg) = .ok repositories ∧
      (mapGet cfg "repositories" = none → repositories = []) ∧
      (∀ items, mapGet cfg "repositories" = some (.slice items) →
        items = repositories.map GoValue.map) := by
    rcases hrepos with h | ⟨items, h, hall⟩
    · exact ⟨[], by simp [getRepositories, nilGet, h], fun _ => rfl, by simp [h]⟩
    · obtain ⟨maps, hok, heq⟩ := asMaps_ok items hall
      refine ⟨maps, by simp [getRepositories, nilGet, h, hok], by simp [h], ?_⟩
      intro items' h'
      rw [h] at h'
      injection h' with h'
      injection h' with h'
      rw [← h', heq]
  have hP : ∃ packages, getPackages (some cfg) = .ok packages ∧
      (mapGet cfg "require" = none → packages = []) ∧
      (∀ entries, mapGet cfg "require" = some (.map entries) → packages = entries) := by
    rcases hreq with h | ⟨entries, h⟩
    · exact ⟨[], by simp [getPackages, nilGet, h], fun _ => rfl, by simp [h]⟩
    · refine ⟨entries, by simp [getPackages, nilGet, h], by simp [h], ?_⟩
      intro entries' h'
      rw [h] at h'
      simpa using h'
  obtain ⟨repositories, hr1, hr2, hr3⟩ := hR
  obtain ⟨packages, hp1, hp2, hp3⟩ := hP
  exact ⟨repositories, packages, hr1, hp1, hr2, hr3, hp2, hp3, by simp [mergeConfig, hr1, hp1]⟩

/-- Witness for C1: two pending updates that share a repository url, visited in
reverse order, merged into the empty document. -/
theorem C1_merge_into_empty_document_witness :
    ∃ merged repos req,
      configGeneratorIter RangeOrder.reversed (goodEnv emptyDocument) twoUpdatesState =
        ({ shouldGenerateConfig := false, shouldGenerateRepo := true, pendingUpdates := [],
           configMutex := RWMutex.free, config := some merged },
         .written (marshal (.map merged))) ∧
      mapGet merged "repositories" = some (.mapSlice repos) ∧
      mapGet merged "require" = some (.map req) ∧
      (∀ k v, mapGet req k = some v ↔
        ∃ e ∈ twoUpdatesState.pendingUpdates,
          e.2.packageName = k ∧ v = .string e.2.packageVersion) ∧
      (∀ r ∈ repos, ∃ e ∈ twoUpdatesState.pendingUpdates, r = newRepo e.2) ∧
      (∀ e ∈ twoUpdatesState.pendingUpdates,
        ∃ r ∈ repos, urlOf r = some (.string e.2.repositoryUrl)) ∧
      (repos.map urlOf).Nodup ∧
      repos.length =
        ((twoUpdatesState.pendingUpdates.map (fun e => e.2.repositoryUrl)).dedup).length :=
  C1_merge_into_empty_document RangeOrder.reversed (goodEnv emptyDocument) twoUpdatesState
    emptyDocument rfl rfl rfl rfl rfl rfl rfl (by decide)

/-! ## The /register handler -/

theorem get_eq_specValue (params : Values) (field : String) :
    params.Get field = specValue params field := by
  unfold Values.Get specValue
  rfl

theorem specMissing_iff (params : Values) (field : String) :
    specMissing params field = true ↔ params.Get field = "" := by
  unfold specMissing Values.Get
  cases mapGet params field with
  | none => simp
  | some vs =>
    cases vs with
    | nil => simp
    | cons v rest => simp

theorem defaultVersion_requested (params : Values) :
    defaultVersion (requestedUpdate params) = specUpdate params := by
  unfold defaultVersion requestedUpdate specUpdate
  by_cases h : params.Get "version" = ""
  · have hm : specMissing params "version" = true := (specMissing_iff params "version").mpr h
    simp [h, hm, get_eq_specValue]
  · have hm : ¬ specMissing params "version" = true :=
      fun hm => h ((specMissing_iff params "version").mp hm)
    have h' : ¬ specValue params "version" = "" := by rwa [← get_eq_specValue]
    simp [h', hm, get_eq_specValue]

theorem register_accepted (params : Values) (s : State)
    (h1 : params.Get "package" ≠ "") (h2 : params.Get "repo" ≠ "")
    (h3 : params.Get "repoType" ≠ "") :
    register params s =
      ({ s with
          pendingUpdates := mapSet s.pendingUpdates (params.Get "package") (specUpdate params)
          shouldGenerateRepo := true },
        ⟨jsonHeader, 200, successBody⟩) := by
  have hn : (defaultVersion (requestedUpdate params)).packageName = params.Get "package" := by
    unfold defaultVersion requestedUpdate
    by_cases h : params.Get "version" = "" <;> simp [h]
  unfold register
  rw [hn, defaultVersion_requested]
  simp [requestedUpdate, h1, h2, h3]

/-- C3: a request in which `package`, `repo` or `repoType` is missing or empty is
answered with 400 and the body naming the first such field, in that order, and
nothing is recorded; any other request is answered with 200 and recorded under its
package name with the given version, or `*` when the version is absent or empty. -/
theorem C3_register_validates_fields (params : Values) (s : State) :
    match specFirstMissing params with
    | some field => register params s = (s, ⟨jsonHeader, 400, specErrorBody field⟩)
    | none =>
      (register params s).2.status = 200 ∧
      (register params s).1.pendingUpdates =
        mapSet s.pendingUpdates (specValue params "package") (specUpdate params) := by
  by_cases h1 : params.Get "package" = ""
  · have m1 := (specMissing_iff params "package").mpr h1
    have hb : specErrorBody "package" = "\x7b\"error\": \"missing package\"\x7d" := by decide
    simp [specFirstMissing, List.find?, m1, register, requestedUpdate, h1, hb]
  · have m1 : specMissing params "package" = false := by
      simpa using fun hm => h1 ((specMissing_iff params "package").mp hm)
    by_cases h2 : params.Get "repo" = ""
    · have m2 := (specMissing_iff params "repo").mpr h2
      have hb : specErrorBody "repo" = "\x7b\"error\": \"missing repo\"\x7d" := by decide
      simp [specFirstMissing, List.find?, m1, m2, register, requestedUpdate, h1, h2, hb]
    · have m2 : specMissing params "repo" = false := by
        simpa using fun hm => h2 ((specMissing_iff params "repo").mp hm)
      by_cases h3 : params.Get "repoType" = ""
      · have m3 := (specMissing_iff params "repoType").mpr h3
        have hb : specErrorBody "repoType" = "\x7b\"error\": \"missing repoType\"\x7d" := by
          decide
        simp [specFirstMissing, List.find?, m1, m2, m3, register, requestedUpdate, h1, h2, h3, hb]
      · have m3 : specMissing params "repoType" = false := by
          simpa using fun hm => h3 ((specMissing_iff params "repoType").mp hm)
        rw [register_accepted params s h1 h2 h3]
        simp [specFirstMissing, List.find?, m1, m2, m3, get_eq_specValue]

/-- C2, evaluated on the code: the handler never writes `shouldGenerateConfig`; what it
sets is `shouldGenerateRepo`.  After the accepted request for `acme/widget` at process
start the update is in the registry, the response is 200 with the success body, the
config flag is still false, and every later pass of the merge worker is idle. -/
theorem C2_register_sets_the_rebuild_flag_only :
    (∀ (params : Values) (s : State),
      (register params s).1.shouldGenerateConfig = s.shouldGenerateConfig) ∧
    register widgetRequest State.init =
      ({ shouldGenerateConfig := false, shouldGenerateRepo := true,
         pendingUpdates := [("acme/widget", widgetUpdate)],
         configMutex := RWMutex.free, config := none },
       ⟨jsonHeader, 200, successBody⟩) ∧
    (∀ (ρ : RangeOrder) (env : Env), env.abort = false →
      configGeneratorIter ρ env (register widgetRequest State.init).1 =
        ((register widgetRequest State.init).1, .idle)) := by
  refine ⟨?_, rfl, ?_⟩
  · intro params s
    unfold register
    split
    · rfl
    · split
      · rfl
      · split <;> rfl
  · intro ρ env ha
    have hs : (register widgetRequest State.init).1.shouldGenerateConfig = false := rfl
    simp [configGeneratorIter, mergePhase, ha, hs]

/-! ## The registry -/

theorem registryWellFormed_mapSet (pending : GoMap PackageInfo) (u : PackageInfo)
    (h : registryWellFormed pending) : registryWellFormed (mapSet pending u.packageName u) := by
  refine ⟨nodup_keys_mapSet pending _ u h.1, ?_⟩
  intro e he
  rcases mem_mapSet pending _ u e he with he | he
  · rw [he]
  · exact h.2 e he

theorem accepted_of_specFirstMissing (params : Values) (h : specFirstMissing params = none) :
    params.Get "package" ≠ "" ∧ params.Get "repo" ≠ "" ∧ params.Get "repoType" ≠ "" := by
  simp only [specFirstMissing, List.find?_eq_none, List.mem_cons, List.mem_singleton,
    List.not_mem_nil, or_false] at h
  refine ⟨?_, ?_, ?_⟩
  · exact fun e => h "package" (Or.inl rfl) ((specMissing_iff params _).mpr e)
  · exact fun e => h "repo" (Or.inr (Or.inl rfl)) ((specMissing_iff params _).mpr e)
  · exact fun e => h "repoType" (Or.inr (Or.inr rfl)) ((specMissing_iff params _).mpr e)

theorem register_pending (params : Values) (s : State) (h : specFirstMissing params = none) :
    (register params s).2.status = 200 ∧
    (register params s).1.pendingUpdates =
      mapSet s.pendingUpdates (specUpdate params).packageName (specUpdate params) := by
  obtain ⟨h1, h2, h3⟩ := accepted_of_specFirstMissing params h
  rw [register_accepted params s h1 h2 h3]
  simp [specUpdate, get_eq_specValue]

/-- C7: after two accepted requests for the same package the registry holds exactly
one entry for that package, it carries the fields of the second request, and the loop
over the pending updates (in any visiting order, from any sections) leaves the version
constraint of the second request under that package name in `require`. -/
theorem C7_last_registration_wins (s : State) (q1 q2 : Values) (ρ : RangeOrder)
    (acc : List (GoMap GoValue) × GoMap GoValue)
    (hwf : registryWellFormed s.pendingUpdates)
    (h1 : specFirstMissing q1 = none) (h2 : specFirstMissing q2 = none)
    (hsame : specValue q1 "package" = specValue q2 "package") :
    (register q1 s).2.status = 200 ∧ (register q2 (register q1 s).1).2.status = 200 ∧
    mapGet (register q1 s).1.pendingUpdates (specValue q2 "package") = some (specUpdate q1) ∧
    mapGet (register q2 (register q1 s).1).1.pendingUpdates (specValue q2 "package") =
      some (specUpdate q2) ∧
    ((register q2 (register q1 s).1).1.pendingUpdates.map Prod.fst).count
      (specValue q2 "package") = 1 ∧
    (∀ e ∈ (register q2 (register q1 s).1).1.pendingUpdates,
      e.2.packageName = specValue q2 "package" → e.2 = specUpdate q2) ∧
    mapGet (mergeUpdates acc
        (ρ.apply ((register q2 (register q1 s).1).1.pendingUpdates.map Prod.snd))).2
      (specValue q2 "package") = some (.string (specUpdate q2).packageVersion) := by
  obtain ⟨hs1, hp1⟩ := register_pending q1 s h1
  obtain ⟨hs2, hp2⟩ := register_pending q2 (register q1 s).1 h2
  have hn1 : (specUpdate q1).packageName = specValue q2 "package" := hsame
  have hn2 : (specUpdate q2).packageName = specValue q2 "package" := rfl
  have hwf1 : registryWellFormed (register q1 s).1.pendingUpdates := by
    rw [hp1]
    exact registryWellFormed_mapSet _ _ hwf
  have hwf2 : registryWellFormed (register q2 (register q1 s).1).1.pendingUpdates := by
    rw [hp2]
    exact registryWellFormed_mapSet _ _ hwf1
  have hg1 : mapGet (register q1 s).1.pendingUpdates (specValue q2 "package") =
      some (specUpdate q1) := by
    rw [hp1, hn1]
    exact mapGet_mapSet_same _ _ _
  have hg2 : mapGet (register q2 (register q1 s).1).1.pendingUpdates (specValue q2 "package") =
      some (specUpdate q2) := by
    rw [hp2, hn2]
    exact mapGet_mapSet_same _ _ _
  have hmem := mapGet_mem _ _ _ hg2
  have honly : ∀ e ∈ (register q2 (register q1 s).1).1.pendingUpdates,
      e.2.packageName = specValue q2 "package" → e.2 = specUpdate q2 := by
    intro e he hname
    have hk : e.1 = specValue q2 "package" := by rw [← hwf2.2 e he, hname]
    have hge := mapGet_of_mem_nodup _ e.1 e.2 hwf2.1 he
    rw [hk, hg2] at hge
    exact (Option.some.inj hge).symm
  refine ⟨hs1, hs2, hg1, hg2, ?_, honly, ?_⟩
  · exact List.count_eq_one_of_mem hwf2.1 (List.mem_map.mpr ⟨_, hmem, rfl⟩)
  · have hu : specUpdate q2 ∈
        ρ.apply ((register q2 (register q1 s).1).1.pendingUpdates.map Prod.snd) :=
      (mem_apply ρ _ _).mpr (List.mem_map.mpr ⟨_, hmem, rfl⟩)
    have := packages_recorded _ acc (specUpdate q2) hu (by
      intro w hw hn
      obtain ⟨e, he, rfl⟩ := List.mem_map.mp ((mem_apply ρ _ _).mp hw)
      exact honly e he hn)
    exact this

/-- Witness for C7: the widget package is registered twice at process start, first
without a version and from another repository, then as `widgetUpdate`. -/
theorem C7_last_registration_wins_witness :
    (register oldWidgetRequest State.init).2.status = 200 ∧
    (register widgetRequest (register oldWidgetRequest State.init).1).2.status = 200 ∧
    mapGet (register oldWidgetRequest State.init).1.pendingUpdates
      (specValue widgetRequest "package") = some (specUpdate oldWidgetRequest) ∧
    mapGet (register widgetRequest (register oldWidgetRequest State.init).1).1.pendingUpdates
      (specValue widgetRequest "package") = some (specUpdate widgetRequest) ∧
    ((register widgetRequest (register oldWidgetRequest State.init).1).1.pendingUpdates.map
      Prod.fst).count (specValue widgetRequest "package") = 1 ∧
    (∀ e ∈ (register widgetRequest (register oldWidgetRequest State.init).1).1.pendingUpdates,
      e.2.packageName = specValue widgetRequest "package" → e.2 = specUpdate widgetRequest) ∧
    mapGet (mergeUpdates ([], [])
        (RangeOrder.stored.apply
          ((register widgetRequest (register oldWidgetRequest State.init).1).1.pendingUpdates.map
            Prod.snd))).2
      (specValue widgetRequest "package") =
      some (.string (specUpdate widgetRequest).packageVersion) :=
  C7_last_registration_wins State.init oldWidgetRequest widgetRequest RangeOrder.stored ([], [])
    ⟨List.nodup_nil, fun _ he => absurd he (List.not_mem_nil _)⟩ (by decide) (by decide) rfl

/-! ## Rewriting the document -/

theorem nilGet_getD (config : Option (GoMap GoValue)) (k : String) :
    mapGet (config.getD []) k = nilGet config k := by
  cases config <;> rfl

theorem nodup_keys_getD (config : Option (GoMap GoValue))
    (h : ∀ entries, config = some entries → (entries.map Prod.fst).Nodup) :
    ((config.getD []).map Prod.fst).Nodup := by
  cases config with
  | none => simp
  | some entries => exact h entries rfl

theorem unmarshal_some_inv (config : Option (GoMap GoValue)) (doc : Json)
    (entries : GoMap GoValue) (h : unmarshal config doc = some (some entries)) :
    ∃ members, doc = .obj members ∧ entries = decodeMembers (config.getD []) members := by
  cases doc with
  | obj members =>
    simp only [unmarshal, Option.some.injEq] at h
    exact ⟨members, rfl, h.symm⟩
  | null => simp [unmarshal] at h
  | bool b => simp [unmarshal] at h
  | number x => simp [unmarshal] at h
  | str x => simp [unmarshal] at h
  | arr x => simp [unmarshal] at h

/-- The keys of `config` stay pairwise distinct from one writing pass to the next (they
are at process start, when `config` is nil). -/
theorem written_config_keys_nodup (ρ : RangeOrder) (env : Env) (s s' : State) (data : Json)
    (h : configGeneratorIter ρ env s = (s', .written data))
    (hprev : ∀ entries, s.config = some entries → (entries.map Prod.fst).Nodup) :
    ∀ entries, s'.config = some entries → (entries.map Prod.fst).Nodup := by
  obtain ⟨doc, cfg, merged, _, _, _, _, hd, hmg, _, hs', _⟩ := iter_written_inv ρ env s s' data h
  obtain ⟨entries0, repositories, packages, hcfg, _, _, hmerged⟩ :=
    mergeConfig_ok_inv cfg _ merged hmg
  subst hcfg
  obtain ⟨members, _, hentries⟩ := unmarshal_some_inv s.config doc entries0 hd
  intro entries he
  rw [hs'] at he
  injection he with he
  rw [← he, hmerged]
  apply nodup_keys_mapSet
  apply nodup_keys_mapSet
  rw [hentries]
  exact nodup_keys_decodeMembers members _ (nodup_keys_getD s.config hprev)

theorem itemAt_roundtrip (items : List Json) (i : Nat) :
    itemAt (marshalList (decodeList items)) i =
      (itemAt items i).map (fun c => marshal (decode c)) := by
  induction items generalizing i with
  | nil => simp [decodeList, marshalList, itemAt]
  | cons x rest ih =>
    cases i with
    | zero => simp [decodeList, marshalList, itemAt]
    | succ n => simp [decodeList, marshalList, itemAt, ih]

theorem lastMember_roundtrip (members : List (String × Json)) (k : String) :
    lastMember (marshalMap (decodeMembers [] members)) k =
      (lastMember members k).map (fun c => marshal (decode c)) := by
  have hnd : ((decodeMembers [] members).map Prod.fst).Nodup :=
    nodup_keys_decodeMembers members [] (by simp)
  have h := sectionOf_marshal (decodeMembers [] members) k hnd
  simp only [marshal, sectionOf] at h
  rw [h, mapGet_decodeMembers]
  cases lastMember members k <;> simp [mapGet]

theorem childAt_roundtrip (j : Json) (step : PathStep) :
    childAt (marshal (decode j)) step =
      (childAt j step).map (fun c => marshal (decode c)) := by
  cases j with
  | obj members =>
    cases step with
    | key k => simpa [decode, marshal, childAt] using lastMember_roundtrip members k
    | index i => simp [decode, marshal, childAt]
  | arr items =>
    cases step with
    | key k => simp [decode, marshal, childAt]
    | index i => simpa [decode, marshal, childAt] using itemAt_roundtrip items i
  | null => simp [decode, marshal, childAt]
  | bool b => simp [decode, marshal, childAt]
  | number x => simp [decode, marshal, childAt]
  | str x => simp [decode, marshal, childAt]

theorem nodeOf_roundtrip (j : Json) : nodeOf (marshal (decode j)) = nodeOf j := by
  cases j <;> simp [decode, marshal, nodeOf]

/-- Decoding a JSON text and marshalling the result gives a text with the same value. -/
theorem sameValue_roundtrip (j : Json) : sameValue (marshal (decode j)) j := by
  intro path
  induction path generalizing j with
  | nil => simp [nodeAt, nodeOf_roundtrip]
  | cons step rest ih =>
    simp only [nodeAt, childAt_roundtrip]
    cases childAt j step with
    | none => simp
    | some child => simpa using ih child

/-- A section of the file other than `repositories` and `require` is written as the
marshalling of the value it was decoded to. -/
theorem section_written (ρ : RangeOrder) (env : Env) (s s' : State) (doc data j : Json)
    (k : String)
    (h : configGeneratorIter ρ env s = (s', .written data))
    (hread : env.readFile = some (.valid doc)) (hsec : sectionOf doc k = some j)
    (hprev : ∀ entries, s.config = some entries → (entries.map Prod.fst).Nodup)
    (h1 : k ≠ "repositories") (h2 : k ≠ "require") :
    sectionOf data k = some (marshal (decode j)) := by
  obtain ⟨doc', cfg, merged, _, _, _, hr, hd, hmg, _, _, hdata⟩ :=
    iter_written_inv ρ env s s' data h
  rw [hread] at hr
  injection hr with hr
  injection hr with hr
  subst hr
  obtain ⟨entries, repositories, packages, hcfg, _, _, hmerged⟩ :=
    mergeConfig_ok_inv cfg _ merged hmg
  subst hcfg
  obtain ⟨members, hdoc, hentries⟩ := unmarshal_some_inv s.config doc entries hd
  subst hdoc
  have hnd : (merged.map Prod.fst).Nodup := by
    rw [hmerged]
    apply nodup_keys_mapSet
    apply nodup_keys_mapSet
    rw [hentries]
    exact nodup_keys_decodeMembers members _ (nodup_keys_getD s.config hprev)
  simp only [sectionOf] at hsec
  rw [hdata, sectionOf_marshal merged k hnd, hmerged, merged_other _ _ _ k h1 h2, hentries,
    mapGet_decodeMembers, hsec]
  rfl

/-- C6 as the code has it: a pass that writes the document writes every top-level
section of the file other than `repositories` and `require` with the same JSON value
(the same members with the same values, in whatever order; the same items in the same
order; the same scalars, a number being the float64 it denotes), not with the same
bytes. -/
theorem C6_other_sections_keep_their_value (ρ : RangeOrder) (env : Env) (s s' : State)
    (doc data j : Json) (k : String)
    (h : configGeneratorIter ρ env s = (s', .written data))
    (hread : env.readFile = some (.valid doc)) (hsec : sectionOf doc k = some j)
    (hprev : ∀ entries, s.config = some entries → (entries.map Prod.fst).Nodup)
    (h1 : k ≠ "repositories") (h2 : k ≠ "require") :
    ∃ w, sectionOf data k = some w ∧ sameValue w j :=
  ⟨marshal (decode j), section_written ρ env s s' doc data j k h hread hsec hprev h1 h2,
    sameValue_roundtrip j⟩

/-- Witness for C6: the `archive` section of `archiveDocument`, first pass. -/
theorem C6_other_sections_keep_their_value_witness :
    ∃ w, sectionOf archiveDocumentWritten "archive" = some w ∧
      sameValue w (.obj [("format", .str "tar"), ("directory", .str "dist")]) :=
  C6_other_sections_keep_their_value RangeOrder.stored (goodEnv archiveDocument) widgetState
    (configGeneratorIter RangeOrder.stored (goodEnv archiveDocument) widgetState).1
    archiveDocument archiveDocumentWritten
    (.obj [("format", .str "tar"), ("directory", .str "dist")]) "archive"
    rfl rfl rfl (fun _ he => Option.noConfusion he) (by decide) (by decide)

/-- C6 as stated fails: the `archive` section of `archiveDocument` is written with its
two members in the other order, so the text of the section is not the text that was
read. -/
theorem C6_section_text_is_not_preserved :
    configGeneratorIter RangeOrder.stored (goodEnv archiveDocument) widgetState =
      ({ shouldGenerateConfig := false, shouldGenerateRepo := true, pendingUpdates := [],
         configMutex := RWMutex.free,
         config := some (("archive", GoValue.map [("format", .string "tar"),
           ("directory", .string "dist")]) :: widgetConfig) },
       .written archiveDocumentWritten) ∧
    sectionOf archiveDocument "archive" =
      some (.obj [("format", .str "tar"), ("directory", .str "dist")]) ∧
    sectionOf archiveDocumentWritten "archive" =
      some (.obj [("directory", .str "dist"), ("format", .str "tar")]) ∧
    sectionOf archiveDocumentWritten "archive" ≠ sectionOf archiveDocument "archive" := by
  refine ⟨rfl, rfl, rfl, ?_⟩
  intro h
  have h' : some (Json.obj [("directory", Json.str "dist"), ("format", Json.str "tar")]) =
      some (Json.obj [("format", Json.str "tar"), ("directory", Json.str "dist")]) := h
  simp at h'

/-! ## Interleaving and failure -/

theorem writeFailed_holds_lock (ρ : RangeOrder) (env : Env) (s s' : State)
    (h : configGeneratorIter ρ env s = (s', .writeFailed)) :
    s.configMutex = RWMutex.free ∧ s'.configMutex = { readers := 0, writer := true } := by
  unfold configGeneratorIter at h
  cases hm : mergePhase ρ env s with
  | mk s1 step =>
    cases step with
    | exit o =>
      simp only [hm] at h
      injection h with _ ho
      exact absurd ho (mergePhase_exit ρ env s s1 o hm).2
    | write d =>
      simp only [hm] at h
      obtain ⟨_, _, _, doc, cfg, merged, _, _, _, hs1, _⟩ := mergePhase_write_inv ρ env s s1 d hm
      unfold persistPhase at h
      cases hl : s1.configMutex.lock with
      | none => simp [hl] at h
      | some held =>
        obtain ⟨hfree, hheld⟩ := lock_some _ _ hl
        by_cases hw : env.writeFile = true
        · simp [hl, hw] at h
        · simp only [hl, hw] at h
          injection h with h1 h2
          rw [hs1] at hfree
          refine ⟨hfree, ?_⟩
          rw [← h1, hheld]

theorem blocked_when_write_locked (ρ : RangeOrder) (env : Env) (s : State)
    (ha : env.abort = false) (hf : s.shouldGenerateConfig = true)
    (hw : s.configMutex.writer = true) :
    configGeneratorIter ρ env s = (s, .blockedOnRLock) := by
  simp [configGeneratorIter, mergePhase, ha, hf, RWMutex.rLock, hw]

/-- C8, evaluated on the code: the registry is emptied at line 165, outside
`updateMutex` and after the write.  The worker merges `widgetUpdate` (first half of
the pass), a request for `acme/gadget` is then accepted and stored, and the second
half of the pass writes the document and empties the registry: the accepted update
is neither in the written document nor in the registry.  Without a request in
between the two halves are one pass. -/
theorem C8_update_registered_during_the_write_is_lost :
    ∃ s1 s2 s3,
      mergePhase RangeOrder.stored (goodEnv emptyDocument) widgetState =
        (s1, .write widgetDocumentWritten) ∧
      register gadgetRequest s1 = (s2, ⟨jsonHeader, 200, successBody⟩) ∧
      mapGet s2.pendingUpdates "acme/gadget" = some gadgetUpdate ∧
      persistPhase (goodEnv emptyDocument) s2 widgetDocumentWritten =
        (s3, .written widgetDocumentWritten) ∧
      sectionOf widgetDocumentWritten "require" = some (.obj [("acme/widget", .str "1.2.0")]) ∧
      sectionOf (.obj [("acme/widget", .str "1.2.0")]) "acme/gadget" = none ∧
      s3.pendingUpdates = [] ∧
      configGeneratorIter RangeOrder.stored (goodEnv emptyDocument) widgetState =
        persistPhase (goodEnv emptyDocument) s1 widgetDocumentWritten :=
  ⟨{ widgetState with config := some widgetConfig },
   { widgetState with
       config := some widgetConfig, shouldGenerateRepo := true,
       pendingUpdates := [("acme/widget", widgetUpdate), ("acme/gadget", gadgetUpdate)] },
   { shouldGenerateConfig := false, shouldGenerateRepo := true, pendingUpdates := [],
     configMutex := RWMutex.free, config := some widgetConfig },
   rfl, rfl, rfl, rfl, rfl, rfl, rfl, rfl⟩

/-- C9, evaluated on the code: when the write fails the pass ends at the `continue`
of line 160 with `shouldGenerateConfig` still set, `shouldGenerateRepo` and the
registry as they were, and `configMutex` still held for writing although it was free
before the pass.  Every later pass then waits at `configMutex.RLock()` and changes
nothing, so the merge is not retried.  The read-failure path of lines 84-89, in
contrast, releases its lock and leaves the state as it was. -/
theorem C9_failed_write_keeps_the_lock :
    configGeneratorIter RangeOrder.stored (failingWriteEnv emptyDocument) widgetState =
      ({ widgetState with
          configMutex := { readers := 0, writer := true }, config := some widgetConfig },
       .writeFailed) ∧
    widgetState.configMutex = RWMutex.free ∧
    (∀ (ρ : RangeOrder) (env : Env), env.abort = false →
      configGeneratorIter ρ env
          { widgetState with
              configMutex := { readers := 0, writer := true }, config := some widgetConfig } =
        ({ widgetState with
            configMutex := { readers := 0, writer := true }, config := some widgetConfig },
         .blockedOnRLock)) ∧
    (∀ (ρ : RangeOrder) (writeFile : Bool),
      configGeneratorIter ρ { abort := false, readFile := none, writeFile := writeFile }
        widgetState = (widgetState, .readFailed)) := by
  refine ⟨rfl, rfl, ?_, ?_⟩
  · intro ρ env ha
    exact blocked_when_write_locked ρ env _ ha rfl rfl
  · intro ρ writeFile
    rfl

/-! ## A later pass -/

/-- C10, evaluated on the code: `config` is declared at line 66, outside the loop, and
`json.Unmarshal` decodes into the map it already holds, so a key that the file does
not have keeps what the previous pass stored.  On a first pass the files
`{"require": {}}` and `{"repositories": []}` are merged as the claim says, the absent
section taken as empty.  On a pass after the scenario pass, with `acme/gadget`
pending, the file `{"require": {}}` (a JSON object, `repositories` absent, `require`
an object) meets the `[]map[string]interface{}` stored at line 147 and the type
assertion of line 107 fails; and for the file `{"repositories": []}` the absent
`require` is not taken as empty: the written document still requires `acme/widget`. -/
theorem C10_absent_section_on_a_later_pass :
    sectionOf requireOnlyDocument "repositories" = none ∧
    sectionOf requireOnlyDocument "require" = some (.obj []) ∧
    sectionOf repositoriesOnlyDocument "repositories" = some (.arr []) ∧
    sectionOf repositoriesOnlyDocument "require" = none ∧
    (configGeneratorIter RangeOrder.stored (goodEnv requireOnlyDocument) firstPassState).2 =
      .written (.obj [("repositories",
          .arr [.obj [("type", .str "git"), ("url", .str "https://example.com/widget.git")]]),
        ("require", .obj [("acme/gadget", .str "*")])]) ∧
    (configGeneratorIter RangeOrder.stored (goodEnv repositoriesOnlyDocument)
        firstPassState).2 =
      .written (.obj [("repositories",
          .arr [.obj [("type", .str "git"), ("url", .str "https://example.com/widget.git")]]),
        ("require", .obj [("acme/gadget", .str "*")])]) ∧
    configGeneratorIter RangeOrder.stored (goodEnv emptyDocument) widgetState =
      ({ laterPassState with shouldGenerateConfig := false, pendingUpdates := [] },
       .written widgetDocumentWritten) ∧
    (configGeneratorIter RangeOrder.stored (goodEnv requireOnlyDocument) laterPassState).2 =
      .panicked .typeAssertion ∧
    (configGeneratorIter RangeOrder.stored (goodEnv repositoriesOnlyDocument)
        laterPassState).2 =
      .written (.obj [("repositories",
          .arr [.obj [("type", .str "git"), ("url", .str "https://example.com/widget.git")]]),
        ("require", .obj [("acme/gadget", .str "*"), ("acme/widget", .str "1.2.0")])]) :=
  ⟨rfl, rfl, rfl, rfl, rfl, rfl, rfl, rfl, rfl⟩

end Satisd
